import Mathlib

/-!
# deskpet: the fox's animation clock, behaviour state machine and motion controller

A shallow embedding of `main.go`.

Modelling conventions.

* Go `int` values are `Int`.  The spec (section 7) puts integer overflow out of
  scope (screen coordinates and tick counts are small), so arithmetic is exact.
  Go's `/` and `%` truncate toward zero: they are `Int.tdiv` and `Int.tmod`, and
  a zero divisor is a run-time fault.
* A run-time panic (integer divide by zero, slice index out of range) is an
  `Except.error` carrying a `Fault`.
* Pointers (`*Animation`, `*image.Point`) are owned values: `NewGame` never
  aliases them.
* The ebiten calls made during one tick (`WindowPosition`,
  `ScreenSizeInFullscreen`, `WindowSize`, `CursorPosition`,
  `IsMouseButtonPressed(MouseButtonLeft)`, `TPS`) and the two `rand.Float64()`
  draws are the fields of `Env`, the readings of one tick.
* A `rand.Float64()` draw is a rational.  The `float64` constant nearest to
  `0.6` lies below `0.6` and no `float64` lies strictly between the two, and
  `0.5` is a `float64`; so on `float64` draws the comparisons of the source
  agree with the comparisons of rationals against `0.6` and `0.5`.
* The sprite image, the background image and `Draw` are rendering and are not
  modelled.
* A run is a list of readings, one per tick (`Game.run`); the games reachable
  from `NewGame` are the results of such runs.  In `Game.runHonoured` every tick
  reads as window position the position the game holds, which is what
  `ebiten.SetWindowPosition` at the start of the tick has set.
-/

namespace Deskpet

/-! ## Constants -/

abbrev scrWidth : Int := 32
abbrev scrHeight : Int := 32
abbrev spriteWidth : Int := 32
abbrev spriteHeight : Int := 32

abbrev Idle : Int := 0
abbrev LookBehind : Int := 1
abbrev Trotting : Int := 2
abbrev Pouncing : Int := 3
abbrev Shocked : Int := 4
abbrev Sleeping : Int := 5
abbrev Dying : Int := 6

/-! ## Go run-time primitives -/

/-- Run-time panics of the Go program. -/
inductive Fault where
  | divideByZero
  | indexOutOfRange
deriving DecidableEq, Repr

/-- Go `a / b` on `int`: truncated quotient, panics on a zero divisor. -/
def goDiv (a b : Int) : Except Fault Int :=
  if b = 0 then .error .divideByZero else .ok (Int.tdiv a b)

/-- Go `a % b` on `int`: truncated remainder, panics on a zero divisor. -/
def goMod (a b : Int) : Except Fault Int :=
  if b = 0 then .error .divideByZero else .ok (Int.tmod a b)

/-- Go `xs[i]` on a slice: panics unless `0 <= i < len(xs)`. -/
def goIndex {α : Type} (xs : List α) (i : Int) : Except Fault α :=
  if i < 0 then .error .indexOutOfRange
  else
    match xs.get? i.toNat with
    | some x => .ok x
    | none => .error .indexOutOfRange

/-! ## Data model -/

/-- Go `image.Point`. -/
structure Point where
  X : Int
  Y : Int
deriving DecidableEq, Repr

/-- Go `image.Rectangle`. -/
structure Rectangle where
  Min : Point
  Max : Point
deriving DecidableEq, Repr

/-- The `Animation` struct. -/
structure Animation where
  Name : String
  Frames : List Rectangle
  CurrentFrame : Rectangle
  FrameCount : Int
  incrementor : Int
  FrameSpeed : Int
deriving DecidableEq, Repr

/-- The `Fox` struct (without its sprite image). -/
structure Fox where
  State : Int
  Animations : List Animation
  Speed : Int
  PounceSpeed : Int
  Position : Point
deriving DecidableEq, Repr

/-- The `Game` struct (without its background image). -/
structure Game where
  Fox : Fox
  DisplayPosition : Point
  tickCounter : Int
  StateTimer : Int
deriving DecidableEq, Repr

/-- What one tick reads from ebiten and from `math/rand`. -/
structure Env where
  /-- First component of `ebiten.WindowPosition()`. -/
  windowX : Int
  /-- First component of `ebiten.ScreenSizeInFullscreen()`. -/
  screenW : Int
  /-- First component of `ebiten.WindowSize()`. -/
  windowW : Int
  /-- First component of `ebiten.CursorPosition()`. -/
  mx : Int
  /-- Second component of `ebiten.CursorPosition()`. -/
  my : Int
  /-- Reading of `ebiten.IsMouseButtonPressed(ebiten.MouseButtonLeft)`. -/
  leftPressed : Bool
  /-- Reading of `ebiten.TPS()`. -/
  tps : Int
  /-- First `rand.Float64()` draw of the tick. -/
  trottingProbability : ℚ
  /-- Second `rand.Float64()` draw of the tick. -/
  sleepProbability : ℚ

/-! ## Frame table generator -/

/-- The `for i := 0; i < frameCount; i++` loop of `generateFrames`, entered with
loop variable `i` and the frames appended so far. -/
def generateFrames.loop (frameCount state yOffSet : Int) (i : Int)
    (animationFrames : List Rectangle) : List Rectangle :=
  if i < frameCount then
    generateFrames.loop frameCount state yOffSet (i + 1)
      (animationFrames ++
        [{ Min := { X := i * spriteWidth, Y := state * spriteHeight },
           Max := { X := (i + 1) * spriteWidth, Y := yOffSet * spriteHeight } }])
  else animationFrames
termination_by (frameCount - i).toNat
decreasing_by omega

/-- The function `generateFrames`. -/
def generateFrames (frameCount state yOffSet : Int) : List Rectangle :=
  generateFrames.loop frameCount state yOffSet 0 []

/-! ## Animation clock -/

/-- The method `(*Animation).Update`. -/
def Animation.Update (a : Animation) : Except Fault Animation := do
  let a := { a with FrameCount := (a.Frames.length : Int) - 1 }
  let q ← goDiv a.incrementor a.FrameSpeed
  let i ← goMod q a.FrameCount
  let frame ← goIndex a.Frames i
  let a := { a with CurrentFrame := frame }
  pure { a with incrementor := a.incrementor + 1 }

/-- The method `(*Fox).Update`: ticks the animation of the active state in place. -/
def Fox.Update (f : Fox) : Except Fault Fox := do
  let a ← goIndex f.Animations f.State
  let a ← a.Update
  pure { f with Animations := f.Animations.set f.State.toNat a }

/-! ## Motion controller -/

/-- The method `(*Fox).Flip`. -/
def Fox.Flip (f : Fox) (env : Env) : Fox :=
  let sx := env.screenW
  let wsx := env.windowW
  let f :=
    if f.Position.X ≥ sx - wsx - spriteWidth then
      { f with Speed := -f.Speed, PounceSpeed := -f.PounceSpeed }
    else f
  if f.Position.X ≤ Int.tdiv sx 2 then
    { f with Speed := -f.Speed, PounceSpeed := -f.PounceSpeed }
  else f

/-- The method `(*Fox).Trot`. -/
def Fox.Trot (f : Fox) (env : Env) : Fox :=
  let wx := env.windowX
  let f := { f with Position := { f.Position with X := wx + f.PounceSpeed } }
  f.Flip env

/-- The method `(*Fox).Pounce`. -/
def Fox.Pounce (f : Fox) (env : Env) : Fox :=
  let wx := env.windowX
  let f := { f with Position := { f.Position with X := wx + f.PounceSpeed } }
  f.Flip env

/-! ## Behaviour state machine -/

/-- Lines 120-122 of `Game.Update`: the dwell-timer increment step. -/
def Game.incrementStep (g : Game) (env : Env) : Except Fault Game := do
  let r ← goMod g.tickCounter env.tps
  if r = 0 then pure { g with StateTimer := g.StateTimer + 1 } else pure g

/-- The guard of lines 124-125: left button held and pointer in the hot-rectangle. -/
abbrev Env.inputOverrideGuard (env : Env) : Prop :=
  env.leftPressed = true ∧ env.mx ≥ 15 ∧ env.my ≥ 15 ∧ env.mx ≤ 25 ∧ env.my ≤ 25

/-- The guard of lines 147-148: pointer in one of the two side hot-rectangles. -/
abbrev Env.pounceGuard (env : Env) : Prop :=
  (env.mx ≥ -10 ∧ env.mx ≤ -5 ∧ env.my ≥ 15 ∧ env.my ≤ 30) ∨
    (env.mx ≥ 30 ∧ env.mx ≤ 40 ∧ env.my ≥ 15 ∧ env.my ≤ 30)

/-- Lines 124-128 of `Game.Update`: the input override. -/
def Game.inputOverride (g : Game) (env : Env) : Game :=
  if env.inputOverrideGuard then
    { g with StateTimer := 0, Fox := { g.Fox with State := Shocked } }
  else g

/-- Lines 130-145 of `Game.Update`: the three idle-branching checks. -/
def Game.idleBranching (g : Game) (env : Env) : Game :=
  let trottingProbability := env.trottingProbability
  let g :=
    if g.Fox.State = Idle ∧ g.StateTimer > 5 ∧ trottingProbability > 0.6 then
      { g with StateTimer := 0, Fox := { g.Fox with State := Trotting } }
    else g
  let sleepProbability := env.sleepProbability
  let g :=
    if g.Fox.State = Idle ∧ g.StateTimer > 5 ∧ sleepProbability < 0.5 then
      { g with StateTimer := 0, Fox := { g.Fox with State := LookBehind } }
    else g
  if g.Fox.State = Idle ∧ g.StateTimer > 5 ∧ sleepProbability > 0.5 then
    { g with StateTimer := 0, Fox := { g.Fox with State := Sleeping } }
  else g

/-- Lines 147-151 of `Game.Update`: the pounce trigger. -/
def Game.pounceTrigger (g : Game) (env : Env) : Game :=
  if env.pounceGuard then
    { g with StateTimer := 0, Fox := { g.Fox with State := Pouncing } }
  else g

/-- Lines 153-173 of `Game.Update`: the `switch g.Fox.State` of timeout exits. -/
def Game.timeoutSwitch (g : Game) (env : Env) : Game :=
  if g.Fox.State = LookBehind then
    if g.StateTimer = 3 then { g with Fox := { g.Fox with State := Idle } } else g
  else if g.Fox.State = Shocked then
    if g.StateTimer = 2 then
      { g with StateTimer := 0, Fox := { g.Fox with State := Idle } }
    else g
  else if g.Fox.State = Trotting then
    let g := if g.StateTimer > 2 then { g with Fox := { g.Fox with State := Idle } } else g
    { g with Fox := g.Fox.Trot env }
  else if g.Fox.State = Pouncing then
    let g := if g.StateTimer > 2 then { g with Fox := { g.Fox with State := Idle } } else g
    { g with Fox := g.Fox.Pounce env }
  else g

/-- Lines 114-151 of `Game.Update`: everything the tick does before it reaches
the `switch`.  The call `ebiten.SetWindowPosition` writes no field of the game. -/
def Game.beforeSwitch (g : Game) (env : Env) : Except Fault Game := do
  let fox ← g.Fox.Update
  let g := { g with Fox := fox }
  let g ← g.incrementStep env
  let g := g.inputOverride env
  let g := g.idleBranching env
  pure (g.pounceTrigger env)

/-- The method `(*Game).Update`: one tick. -/
def Game.Update (g : Game) (env : Env) : Except Fault Game := do
  let g ← g.beforeSwitch env
  let g := g.timeoutSwitch env
  pure { g with tickCounter := g.tickCounter + 1 }

/-! ## Construction -/

/-- An `Animation` literal of `NewGame`: the fields it does not name are zero. -/
def newAnimation (name : String) (frames : List Rectangle) (frameSpeed frameCount : Int) :
    Animation :=
  { Name := name
    Frames := frames
    CurrentFrame := { Min := { X := 0, Y := 0 }, Max := { X := 0, Y := 0 } }
    FrameCount := frameCount
    incrementor := 0
    FrameSpeed := frameSpeed }

/-- The slice `foxAnimations` built by `NewGame`. -/
def foxAnimations : List Animation :=
  [ newAnimation "Idle" (generateFrames 5 Idle 1) 15 5,
    newAnimation "LookBehind" (generateFrames 14 LookBehind 2) 15 14,
    newAnimation "Trotting" (generateFrames 8 Trotting 3) 15 8,
    newAnimation "Pouncing" (generateFrames 11 Pouncing 4) 15 11,
    newAnimation "Shocked" (generateFrames 5 Shocked 5) 15 5,
    newAnimation "Sleeping" (generateFrames 6 Sleeping 6) 15 6,
    newAnimation "Dying" (generateFrames 7 Dying 7) 15 7 ]

/-- The function `NewGame`, given the reading `(sx, sy)` of
`ebiten.ScreenSizeInFullscreen()`. -/
def NewGame (sx sy : Int) : Game :=
  { Fox :=
      { State := Idle
        Animations := foxAnimations
        Speed := 2
        PounceSpeed := 1
        Position := { X := Int.tdiv sx 2, Y := sy - 128 - 32 } }
    DisplayPosition := { X := 0, Y := 0 }
    tickCounter := 0
    StateTimer := 0 }

/-! ## Concrete games -/

/-- The game of `NewGame` on a 1280x720 screen, put in state `s` with dwell-timer
`timer` and tick counter `tick`. -/
def gameAt (s timer tick : Int) : Game :=
  { NewGame 1280 720 with
    StateTimer := timer
    tickCounter := tick
    Fox := { (NewGame 1280 720).Fox with State := s } }

/-- A tick's readings on a 1280-wide screen with a 128-wide overlay at x = 640 and
60 ticks per second. -/
def envAt (mx my : Int) (leftPressed : Bool) (a b : ℚ) : Env :=
  { windowX := 640, screenW := 1280, windowW := 128, mx := mx, my := my,
    leftPressed := leftPressed, tps := 60, trottingProbability := a, sleepProbability := b }

/-! ## Runs of ticks -/

/-- A run of ticks, one per element of `envs`: each tick is one `Game.Update`, on
the readings `adj g env` where `g` is the game at the start of that tick.  The
run stops at the first tick that faults. -/
def Game.runWith (adj : Game → Env → Env) (g : Game) : List Env → Except Fault Game
  | [] => .ok g
  | env :: envs =>
    match g.Update (adj g env) with
    | .ok g' => Game.runWith adj g' envs
    | .error e => .error e

/-- A run of ticks on arbitrary readings. -/
def Game.run (g : Game) (envs : List Env) : Except Fault Game :=
  Game.runWith (fun _ env => env) g envs

/-- The readings of a tick on a screen of width `sx` with an overlay of width
`wsx` whose window honours `ebiten.SetWindowPosition`: line 116 has moved the
window to `g.Fox.Position`, so `ebiten.WindowPosition()` reads `g.Fox.Position.X`.
Pointer, button, tick rate and draws are those of `env`. -/
def Env.honoured (sx wsx : Int) (g : Game) (env : Env) : Env :=
  { env with windowX := g.Fox.Position.X, screenW := sx, windowW := wsx }

/-- A run of ticks in which the window honours `ebiten.SetWindowPosition`. -/
def Game.runHonoured (sx wsx : Int) (g : Game) (envs : List Env) : Except Fault Game :=
  Game.runWith (Env.honoured sx wsx) g envs

/-- The number of ticks of the run `Game.run g envs` that begin with state `s`
active, which are the ticks whose `Fox.Update` ticks the animation of `s`. -/
def Game.activeTicks (s : Int) (g : Game) : List Env → Nat
  | [] => 0
  | env :: envs =>
    match g.Update env with
    | .ok g' => (if g.Fox.State = s then 1 else 0) + Game.activeTicks s g' envs
    | .error _ => 0

/-- The games on which a tick's animation step cannot fault: the state is one of
the seven, and each of the seven animations has at least two frames, a positive
frame speed and a non-negative counter. -/
def Game.WellFormed (g : Game) : Prop :=
  0 ≤ g.Fox.State ∧ g.Fox.State ≤ 6 ∧
    ∀ s : Int, 0 ≤ s → s ≤ 6 →
      ∃ a, goIndex g.Fox.Animations s = .ok a ∧ 2 ≤ a.Frames.length ∧ 0 < a.FrameSpeed ∧
        0 ≤ a.incrementor

/-! ## The frame table in closed form -/

theorem generateFrames.loop_eq (frameCount state yOffSet : Int) :
    ∀ (m : Nat) (i : Int) (acc : List Rectangle), (frameCount - i).toNat = m →
      generateFrames.loop frameCount state yOffSet i acc =
        acc ++ (List.range m).map (fun (j : Nat) =>
          ({ Min := { X := (i + j) * spriteWidth, Y := state * spriteHeight },
             Max := { X := (i + j + 1) * spriteWidth, Y := yOffSet * spriteHeight } } :
            Rectangle)) := by
  intro m
  induction m with
  | zero =>
    intro i acc h
    have hi : ¬ i < frameCount := by omega
    rw [generateFrames.loop]
    simp [hi]
  | succ m ih =>
    intro i acc h
    have hi : i < frameCount := by omega
    rw [generateFrames.loop, if_pos hi, ih (i + 1) _ (by omega)]
    rw [List.range_succ_eq_map, List.map_cons, List.map_map, List.append_assoc]
    congr 1
    simp only [List.singleton_append, Nat.cast_zero, add_zero]
    congr 1
    apply List.map_congr_left
    intro j _
    simp only [Function.comp, Nat.succ_eq_add_one, Nat.cast_add, Nat.cast_one]
    have e : i + 1 + (j : Int) = i + ((j : Int) + 1) := by ring
    rw [e]

theorem generateFrames_eq_map (frameCount state yOffSet : Int) :
    generateFrames frameCount state yOffSet =
      (List.range frameCount.toNat).map (fun (j : Nat) =>
        ({ Min := { X := (j : Int) * spriteWidth, Y := state * spriteHeight },
           Max := { X := ((j : Int) + 1) * spriteWidth, Y := yOffSet * spriteHeight } } :
          Rectangle)) := by
  rw [generateFrames, generateFrames.loop_eq frameCount state yOffSet frameCount.toNat 0 []
    (by simp)]
  simp

/-! ## One tick, phase by phase -/

theorem Fox.Update_fields {f fox : Fox} (h : f.Update = .ok fox) :
    fox.State = f.State ∧ fox.Speed = f.Speed ∧ fox.PounceSpeed = f.PounceSpeed ∧
      fox.Position = f.Position := by
  unfold Fox.Update at h
  cases h1 : goIndex f.Animations f.State with
  | error e => simp [h1, bind, Except.bind] at h
  | ok a =>
    cases h2 : a.Update with
    | error e => simp [h1, h2, bind, Except.bind] at h
    | ok a' =>
      simp [h1, h2, bind, Except.bind, pure, Except.pure] at h
      subst h
      simp

theorem Game.incrementStep_fields {g g1 : Game} {env : Env} (h : g.incrementStep env = .ok g1) :
    g1.Fox = g.Fox ∧ g1.tickCounter = g.tickCounter ∧ g1.DisplayPosition = g.DisplayPosition := by
  unfold Game.incrementStep at h
  cases h1 : goMod g.tickCounter env.tps with
  | error e => simp [h1, bind, Except.bind] at h
  | ok r =>
    simp only [h1, bind, Except.bind, pure, Except.pure] at h
    split at h <;> (injection h with h; subst h; simp)

theorem Game.incrementStep_ok (g : Game) (env : Env) (h : env.tps ≠ 0) :
    ∃ g1, g.incrementStep env = .ok g1 := by
  unfold Game.incrementStep
  simp only [goMod, h, if_false, bind, Except.bind, pure, Except.pure]
  split <;> exact ⟨_, rfl⟩

theorem Game.Update_eq {g g1 : Game} {env : Env} {fox : Deskpet.Fox} (hfox : g.Fox.Update = .ok fox)
    (hinc : Game.incrementStep { g with Fox := fox } env = .ok g1) :
    g.Update env =
      .ok { (((g1.inputOverride env).idleBranching env).pounceTrigger env).timeoutSwitch env with
            tickCounter :=
              ((((g1.inputOverride env).idleBranching env).pounceTrigger env).timeoutSwitch
                env).tickCounter + 1 } := by
  simp [Game.Update, Game.beforeSwitch, hfox, hinc, bind, Except.bind, pure, Except.pure]


theorem Game.inputOverride_pos (g : Game) {env : Env} (h : env.inputOverrideGuard) :
    g.inputOverride env = { g with StateTimer := 0, Fox := { g.Fox with State := Shocked } } := by
  rw [Game.inputOverride, if_pos h]

theorem Game.inputOverride_neg (g : Game) {env : Env} (h : ¬ env.inputOverrideGuard) :
    g.inputOverride env = g := by
  rw [Game.inputOverride, if_neg h]

theorem Game.pounceTrigger_pos (g : Game) {env : Env} (h : env.pounceGuard) :
    g.pounceTrigger env = { g with StateTimer := 0, Fox := { g.Fox with State := Pouncing } } := by
  rw [Game.pounceTrigger, if_pos h]

theorem Game.pounceTrigger_neg (g : Game) {env : Env} (h : ¬ env.pounceGuard) :
    g.pounceTrigger env = g := by
  rw [Game.pounceTrigger, if_neg h]

theorem Game.idleBranching_of_not_idle (g : Game) (env : Env) (h : g.Fox.State ≠ Idle) :
    g.idleBranching env = g := by
  simp [Game.idleBranching, h]

theorem Game.idleBranching_of_le (g : Game) (env : Env) (h : g.StateTimer ≤ 5) :
    g.idleBranching env = g := by
  have h' : ¬ 5 < g.StateTimer := by omega
  simp [Game.idleBranching, h']

theorem Game.idleBranching_trot (g : Game) (env : Env) (hs : g.Fox.State = Idle)
    (ht : g.StateTimer > 5) (ha : env.trottingProbability > 0.6) :
    g.idleBranching env = { g with StateTimer := 0, Fox := { g.Fox with State := Trotting } } := by
  have ht' : 5 < g.StateTimer := ht
  have ha' : (0.6 : ℚ) < env.trottingProbability := ha
  simp [Game.idleBranching, hs, ht', ha']

theorem Game.idleBranching_look (g : Game) (env : Env) (hs : g.Fox.State = Idle)
    (ht : g.StateTimer > 5) (ha : ¬ env.trottingProbability > 0.6)
    (hb : env.sleepProbability < 0.5) :
    g.idleBranching env =
      { g with StateTimer := 0, Fox := { g.Fox with State := LookBehind } } := by
  have ht' : 5 < g.StateTimer := ht
  have ha' : ¬ (0.6 : ℚ) < env.trottingProbability := ha
  simp [Game.idleBranching, hs, ht', ha', hb]

theorem Game.idleBranching_sleep (g : Game) (env : Env) (hs : g.Fox.State = Idle)
    (ht : g.StateTimer > 5) (ha : ¬ env.trottingProbability > 0.6)
    (hb : env.sleepProbability > 0.5) :
    g.idleBranching env = { g with StateTimer := 0, Fox := { g.Fox with State := Sleeping } } := by
  have ht' : 5 < g.StateTimer := ht
  have ha' : ¬ (0.6 : ℚ) < env.trottingProbability := ha
  have hb' : (0.5 : ℚ) < env.sleepProbability := hb
  have hb'' : ¬ env.sleepProbability < (0.5 : ℚ) := not_lt.mpr (le_of_lt hb')
  simp [Game.idleBranching, hs, ht', ha', hb', hb'']

theorem Game.idleBranching_half (g : Game) (env : Env)
    (ha : ¬ env.trottingProbability > 0.6) (hb : env.sleepProbability = 0.5) :
    g.idleBranching env = g := by
  have ha' : ¬ (0.6 : ℚ) < env.trottingProbability := ha
  simp [Game.idleBranching, ha', hb]


theorem Game.state_after_increment {g g1 : Game} {env : Env} {fox : Deskpet.Fox}
    (hfox : g.Fox.Update = .ok fox)
    (hinc : Game.incrementStep { g with Fox := fox } env = .ok g1) :
    g1.Fox.State = g.Fox.State ∧ g1.Fox.Speed = g.Fox.Speed ∧
      g1.Fox.PounceSpeed = g.Fox.PounceSpeed ∧ g1.Fox.Position = g.Fox.Position ∧
      g1.tickCounter = g.tickCounter := by
  obtain ⟨h1, h2, _⟩ := Game.incrementStep_fields hinc
  obtain ⟨h3, h4, h5, h6⟩ := Fox.Update_fields hfox
  simp only at h1 h2
  rw [h1, h2]
  exact ⟨h3, h4, h5, h6, rfl⟩

/-- A tick that starts in LookBehind, without override or pounce trigger. -/
theorem Game.Update_of_lookBehind {g g1 : Game} {env : Env} {fox : Deskpet.Fox}
    (hfox : g.Fox.Update = .ok fox)
    (hinc : Game.incrementStep { g with Fox := fox } env = .ok g1)
    (hs : g.Fox.State = LookBehind) (hno : ¬ env.inputOverrideGuard)
    (hnp : ¬ env.pounceGuard) :
    ∃ g', g.Update env = .ok g' ∧ g'.StateTimer = g1.StateTimer ∧
      g'.Fox.State = (if g1.StateTimer = 3 then Idle else LookBehind) := by
  have hs1 : g1.Fox.State = LookBehind := (Game.state_after_increment hfox hinc).1.trans hs
  refine ⟨_, Game.Update_eq hfox hinc, ?_⟩
  rw [Game.inputOverride_neg g1 hno, Game.idleBranching_of_not_idle _ _ (by rw [hs1]; decide),
    Game.pounceTrigger_neg _ hnp]
  by_cases h3 : g1.StateTimer = 3 <;> simp [Game.timeoutSwitch, hs1, h3]

/-- A tick that starts in Shocked, without override or pounce trigger. -/
theorem Game.Update_of_shocked {g g1 : Game} {env : Env} {fox : Deskpet.Fox}
    (hfox : g.Fox.Update = .ok fox)
    (hinc : Game.incrementStep { g with Fox := fox } env = .ok g1)
    (hs : g.Fox.State = Shocked) (hno : ¬ env.inputOverrideGuard)
    (hnp : ¬ env.pounceGuard) :
    ∃ g', g.Update env = .ok g' ∧
      g'.StateTimer = (if g1.StateTimer = 2 then 0 else g1.StateTimer) ∧
      g'.Fox.State = (if g1.StateTimer = 2 then Idle else Shocked) := by
  have hs1 : g1.Fox.State = Shocked := (Game.state_after_increment hfox hinc).1.trans hs
  refine ⟨_, Game.Update_eq hfox hinc, ?_⟩
  rw [Game.inputOverride_neg g1 hno, Game.idleBranching_of_not_idle _ _ (by rw [hs1]; decide),
    Game.pounceTrigger_neg _ hnp]
  by_cases h2 : g1.StateTimer = 2 <;> simp [Game.timeoutSwitch, hs1, h2]

/-- A tick that starts in Idle with the incremented timer above 5, without
override or pounce trigger: the state and timer it ends with, by the two draws. -/
theorem Game.Update_of_idle {g g1 : Game} {env : Env} {fox : Deskpet.Fox}
    (hfox : g.Fox.Update = .ok fox)
    (hinc : Game.incrementStep { g with Fox := fox } env = .ok g1)
    (hs : g.Fox.State = Idle) (ht : g1.StateTimer > 5) (hno : ¬ env.inputOverrideGuard)
    (hnp : ¬ env.pounceGuard) :
    ∃ g', g.Update env = .ok g' ∧
      (env.trottingProbability > 0.6 → g'.Fox.State = Trotting ∧ g'.StateTimer = 0) ∧
      (¬ env.trottingProbability > 0.6 → env.sleepProbability < 0.5 →
        g'.Fox.State = LookBehind ∧ g'.StateTimer = 0) ∧
      (¬ env.trottingProbability > 0.6 → env.sleepProbability > 0.5 →
        g'.Fox.State = Sleeping ∧ g'.StateTimer = 0) ∧
      (¬ env.trottingProbability > 0.6 → env.sleepProbability = 0.5 →
        g'.Fox.State = Idle ∧ g'.StateTimer = g1.StateTimer) := by
  have hs1 : g1.Fox.State = Idle := (Game.state_after_increment hfox hinc).1.trans hs
  refine ⟨_, Game.Update_eq hfox hinc, ?_, ?_, ?_, ?_⟩
  · intro ha
    rw [Game.inputOverride_neg g1 hno, Game.idleBranching_trot _ _ hs1 ht ha,
      Game.pounceTrigger_neg _ hnp]
    simp [Game.timeoutSwitch, Fox.Trot, Fox.Flip]
    split <;> split <;> simp
  · intro ha hb
    rw [Game.inputOverride_neg g1 hno, Game.idleBranching_look _ _ hs1 ht ha hb,
      Game.pounceTrigger_neg _ hnp]
    simp [Game.timeoutSwitch]
  · intro ha hb
    rw [Game.inputOverride_neg g1 hno, Game.idleBranching_sleep _ _ hs1 ht ha hb,
      Game.pounceTrigger_neg _ hnp]
    simp [Game.timeoutSwitch]
  · intro ha hb
    rw [Game.inputOverride_neg g1 hno, Game.idleBranching_half _ _ ha hb,
      Game.pounceTrigger_neg _ hnp]
    simp [Game.timeoutSwitch, hs1]

/-! ## The animation clock on well-formed animations -/

/-- What `Animation.Update` does on an animation with at least two frames, a
positive frame speed and a non-negative counter. -/
theorem Animation.Update_of_two_frames (a : Animation) (hlen : 2 ≤ a.Frames.length)
    (hs : 0 < a.FrameSpeed) (hk : 0 ≤ a.incrementor) :
    ∃ frame,
      a.Frames.get?
          (Int.tmod (Int.tdiv a.incrementor a.FrameSpeed) ((a.Frames.length : Int) - 1)).toNat =
        some frame ∧
      a.Update = .ok { a with FrameCount := (a.Frames.length : Int) - 1,
                              CurrentFrame := frame,
                              incrementor := a.incrementor + 1 } := by
  have hq : 0 ≤ Int.tdiv a.incrementor a.FrameSpeed := Int.tdiv_nonneg hk (le_of_lt hs)
  have hpos : (0 : Int) < (a.Frames.length : Int) - 1 := by omega
  have hr0 : 0 ≤ Int.tmod (Int.tdiv a.incrementor a.FrameSpeed) ((a.Frames.length : Int) - 1) :=
    Int.tmod_nonneg _ hq
  have hr1 : Int.tmod (Int.tdiv a.incrementor a.FrameSpeed) ((a.Frames.length : Int) - 1) <
      (a.Frames.length : Int) - 1 := Int.tmod_lt_of_pos _ hpos
  have hlt : (Int.tmod (Int.tdiv a.incrementor a.FrameSpeed)
      ((a.Frames.length : Int) - 1)).toNat < a.Frames.length := by omega
  obtain ⟨frame, hframe⟩ : ∃ frame, a.Frames.get? (Int.tmod (Int.tdiv a.incrementor a.FrameSpeed)
      ((a.Frames.length : Int) - 1)).toNat = some frame :=
    ⟨_, List.get?_eq_get hlt⟩
  refine ⟨frame, hframe, ?_⟩
  have hs' : a.FrameSpeed ≠ 0 := ne_of_gt hs
  have hpos' : (a.Frames.length : Int) - 1 ≠ 0 := ne_of_gt hpos
  have hneg : ¬ Int.tmod (Int.tdiv a.incrementor a.FrameSpeed) ((a.Frames.length : Int) - 1) < 0 :=
    not_lt.mpr hr0
  simp only [Animation.Update, goDiv, goMod, goIndex, hs', hpos', hneg, hframe, if_false, bind,
    Except.bind, pure, Except.pure]

/-- The tick of the fox's animation completes when the active state's animation
has at least two frames, a positive frame speed and a non-negative counter. -/
theorem Fox.Update_ok (f : Fox) (a : Animation) (ha : goIndex f.Animations f.State = .ok a)
    (hlen : 2 ≤ a.Frames.length) (hs : 0 < a.FrameSpeed) (hk : 0 ≤ a.incrementor) :
    ∃ fox, f.Update = .ok fox := by
  obtain ⟨frame, _, hup⟩ := Animation.Update_of_two_frames a hlen hs hk
  simp only [Fox.Update, ha, hup, bind, Except.bind, pure, Except.pure]
  exact ⟨_, rfl⟩

/-- Each of the seven animations of `NewGame`: where it sits in the slice, its
frame table, frame speed and counter. -/
theorem foxAnimations_index (s : Int) (h0 : 0 ≤ s) (h6 : s ≤ 6) :
    ∃ a, goIndex foxAnimations s = .ok a ∧ 2 ≤ a.Frames.length ∧ a.FrameSpeed = 15 ∧
      a.incrementor = 0 := by
  interval_cases s <;>
    simp [goIndex, foxAnimations, newAnimation, generateFrames_eq_map]

theorem gameAt_Fox_Update_ok (s timer tick : Int) (h0 : 0 ≤ s) (h6 : s ≤ 6) :
    ∃ fox, (gameAt s timer tick).Fox.Update = .ok fox := by
  obtain ⟨a, ha, hlen, hs, hk⟩ := foxAnimations_index s h0 h6
  exact Fox.Update_ok _ a ha hlen (by omega) (by omega)


/-! ## The motion controller, field by field -/

theorem Fox.Flip_State (f : Fox) (env : Env) : (f.Flip env).State = f.State := by
  unfold Fox.Flip
  simp only
  split <;> split <;> rfl

theorem Fox.Flip_Position (f : Fox) (env : Env) : (f.Flip env).Position = f.Position := by
  unfold Fox.Flip
  simp only
  split <;> split <;> rfl

theorem Fox.Flip_inside (f : Fox) (env : Env)
    (h1 : Int.tdiv env.screenW 2 < f.Position.X)
    (h2 : f.Position.X < env.screenW - env.windowW - 32) :
    f.Flip env = f := by
  have h1' : ¬ f.Position.X ≤ Int.tdiv env.screenW 2 := not_le.mpr h1
  have h2' : ¬ f.Position.X ≥ env.screenW - env.windowW - spriteWidth := not_le.mpr h2
  simp only [Fox.Flip, if_neg h2', if_neg h1']

theorem Fox.Trot_fields (f : Fox) (env : Env) :
    (f.Trot env).State = f.State ∧ (f.Trot env).Position.X = env.windowX + f.PounceSpeed ∧
      (f.Trot env).Position.Y = f.Position.Y := by
  simp only [Fox.Trot, Fox.Flip_State, Fox.Flip_Position, and_self]

theorem Fox.Pounce_eq_Trot (f : Fox) (env : Env) : f.Pounce env = f.Trot env := rfl

/-! ## What the phases before the switch leave untouched -/

theorem Game.inputOverride_motion (g : Game) (env : Env) :
    (g.inputOverride env).Fox.Position = g.Fox.Position ∧
      (g.inputOverride env).Fox.Speed = g.Fox.Speed ∧
      (g.inputOverride env).Fox.PounceSpeed = g.Fox.PounceSpeed := by
  unfold Game.inputOverride
  split <;> simp

theorem Game.idleBranching_motion (g : Game) (env : Env) :
    (g.idleBranching env).Fox.Position = g.Fox.Position ∧
      (g.idleBranching env).Fox.Speed = g.Fox.Speed ∧
      (g.idleBranching env).Fox.PounceSpeed = g.Fox.PounceSpeed := by
  unfold Game.idleBranching
  simp only
  split <;> split <;> split <;> simp

theorem Game.pounceTrigger_motion (g : Game) (env : Env) :
    (g.pounceTrigger env).Fox.Position = g.Fox.Position ∧
      (g.pounceTrigger env).Fox.Speed = g.Fox.Speed ∧
      (g.pounceTrigger env).Fox.PounceSpeed = g.Fox.PounceSpeed := by
  unfold Game.pounceTrigger
  split <;> simp

theorem Game.beforeSwitch_motion {g g1 : Game} {env : Env} (h : g.beforeSwitch env = .ok g1) :
    g1.Fox.Position = g.Fox.Position ∧ g1.Fox.Speed = g.Fox.Speed ∧
      g1.Fox.PounceSpeed = g.Fox.PounceSpeed := by
  unfold Game.beforeSwitch at h
  cases hfox : g.Fox.Update with
  | error e => simp [hfox, bind, Except.bind] at h
  | ok fox =>
    cases hinc : Game.incrementStep { g with Fox := fox } env with
    | error e => simp [hfox, hinc, bind, Except.bind] at h
    | ok g0 =>
      simp only [hfox, hinc, bind, Except.bind, pure, Except.pure] at h
      injection h with h
      subst h
      obtain ⟨_, a1, a2, a3, _⟩ := Game.state_after_increment hfox hinc
      obtain ⟨b1, b2, b3⟩ := Game.inputOverride_motion g0 env
      obtain ⟨c1, c2, c3⟩ := Game.idleBranching_motion (g0.inputOverride env) env
      obtain ⟨d1, d2, d3⟩ :=
        Game.pounceTrigger_motion ((g0.inputOverride env).idleBranching env) env
      exact ⟨by rw [d1, c1, b1, a3], by rw [d2, c2, b2, a1], by rw [d3, c3, b3, a2]⟩

theorem Game.beforeSwitch_ok {g g1 : Game} {env : Env} {fox : Deskpet.Fox}
    (hfox : g.Fox.Update = .ok fox)
    (hinc : Game.incrementStep { g with Fox := fox } env = .ok g1) :
    g.beforeSwitch env = .ok (((g1.inputOverride env).idleBranching env).pounceTrigger env) := by
  simp [Game.beforeSwitch, hfox, hinc, bind, Except.bind, pure, Except.pure]

theorem Game.Update_of_beforeSwitch {g g1 : Game} {env : Env} (h : g.beforeSwitch env = .ok g1) :
    g.Update env =
      .ok { g1.timeoutSwitch env with tickCounter := (g1.timeoutSwitch env).tickCounter + 1 } := by
  simp [Game.Update, h, bind, Except.bind, pure, Except.pure]

/-! ## Claims -/

/-- C1 (fails on the code). The Idle animation of `NewGame` has N = 5 frames and
frame speed 15. The `Animation.Update` call that reads counter value 60
recomputes the frame count as 4 and selects `Frames[(60/15) mod 4] = Frames[0]`,
the rectangle (0,0)-(32,32), whereas `Frames[floor(60/15) mod 5] = Frames[4]` is the
rectangle (128,0)-(160,32). -/
theorem animation_update_idle_counter_60 :
    ∃ idle a', goIndex foxAnimations Idle = .ok idle ∧
      idle.Frames.length = 5 ∧ idle.FrameSpeed = 15 ∧
      Animation.Update { idle with incrementor := 60 } = .ok a' ∧
      a'.FrameCount = 4 ∧
      a'.CurrentFrame = { Min := { X := 0, Y := 0 }, Max := { X := 32, Y := 32 } } ∧
      idle.Frames.get? 0 = some { Min := { X := 0, Y := 0 }, Max := { X := 32, Y := 32 } } ∧
      idle.Frames.get? (Int.tmod (Int.tdiv 60 15) 5).toNat =
        some { Min := { X := 128, Y := 0 }, Max := { X := 160, Y := 32 } } := by
  refine ⟨newAnimation "Idle" (generateFrames 5 Idle 1) 15 5,
    { newAnimation "Idle" (generateFrames 5 Idle 1) 15 5 with
      FrameCount := 4
      CurrentFrame := { Min := { X := 0, Y := 0 }, Max := { X := 32, Y := 32 } }
      incrementor := 61 }, ?_, ?_, ?_, ?_, ?_, ?_, ?_, ?_⟩
  · simp [goIndex, foxAnimations]
  · simp [newAnimation, generateFrames_eq_map]
  · rfl
  · simp only [Animation.Update, newAnimation, generateFrames_eq_map, goDiv, goMod, goIndex,
      bind, Except.bind, pure, Except.pure]
    rfl
  · rfl
  · rfl
  · simp only [newAnimation, generateFrames_eq_map]
    decide
  · simp only [newAnimation, generateFrames_eq_map]
    decide

/-- C2. A tick that completes (its animation step does not fault and the tick
rate is non-zero), in which the left button is held and the pointer satisfies
15 <= mx <= 25 and 15 <= my <= 25, ends with State = Shocked and StateTimer = 0,
whatever the prior state, dwell-timer, tick counter and random draws. -/
theorem input_override_forces_shocked (g : Game) (env : Env) (fox : Fox)
    (hfox : g.Fox.Update = .ok fox) (htps : env.tps ≠ 0) (hbtn : env.leftPressed = true)
    (hx : 15 ≤ env.mx ∧ env.mx ≤ 25) (hy : 15 ≤ env.my ∧ env.my ≤ 25) :
    ∃ g', g.Update env = .ok g' ∧ g'.Fox.State = Shocked ∧ g'.StateTimer = 0 := by
  obtain ⟨g1, hinc⟩ := Game.incrementStep_ok { g with Fox := fox } env htps
  have hp : ¬ env.pounceGuard := by unfold Env.pounceGuard; omega
  have ho : env.inputOverrideGuard := ⟨hbtn, hx.1, hy.1, hx.2, hy.2⟩
  refine ⟨_, Game.Update_eq hfox hinc, ?_⟩
  rw [Game.inputOverride_pos g1 ho, Game.idleBranching_of_not_idle _ _ (by simp),
    Game.pounceTrigger_neg _ hp]
  simp [Game.timeoutSwitch]

/-- Witness for C2: from Idle with dwell-timer 9, the button held at (20,20) and
draws that would otherwise start a trot. -/
theorem input_override_forces_shocked_witness :
    ∃ g', (gameAt Idle 9 540).Update (envAt 20 20 true 0.9 0.1) = .ok g' ∧
      g'.Fox.State = Shocked ∧ g'.StateTimer = 0 := by
  obtain ⟨fox, hfox⟩ := gameAt_Fox_Update_ok Idle 9 540 (by decide) (by decide)
  exact input_override_forces_shocked (gameAt Idle 9 540) (envAt 20 20 true 0.9 0.1) fox hfox
    (by decide) rfl (by decide) (by decide)

/-- C3 (fails on the code). From Idle with dwell-timer 5 at tick counter 300 (so the
increment step makes the timer 6 > 5), no button, pointer at (0,0), first draw
0.3 (not above 0.6) and second draw exactly 0.5: the tick ends in Idle with
StateTimer = 6, neither in Sleeping nor with the timer at 0. -/
theorem idle_branching_draw_half_stays_idle :
    ∃ g', (gameAt Idle 5 300).Update (envAt 0 0 false 0.3 0.5) = .ok g' ∧
      g'.Fox.State = Idle ∧ g'.StateTimer = 6 := by
  obtain ⟨fox, hfox⟩ := gameAt_Fox_Update_ok Idle 5 300 (by decide) (by decide)
  have hinc : Game.incrementStep { gameAt Idle 5 300 with Fox := fox }
      (envAt 0 0 false 0.3 0.5) = .ok { gameAt Idle 6 300 with Fox := fox } := rfl
  obtain ⟨g', hg', _, _, _, h⟩ := Game.Update_of_idle hfox hinc rfl
    (by show (6 : Int) > 5; decide) (by decide) (by decide)
  exact ⟨g', hg', h (by norm_num [envAt]) rfl⟩

/-- C4. A tick that completes, in which the pointer lies in [-10,-5]x[15,30] or
in [30,40]x[15,30], ends with State = Pouncing and StateTimer = 0, whatever the
prior state, timer, button and draws. -/
theorem pounce_trigger_forces_pouncing (g : Game) (env : Env) (fox : Fox)
    (hfox : g.Fox.Update = .ok fox) (htps : env.tps ≠ 0)
    (hx : (-10 ≤ env.mx ∧ env.mx ≤ -5) ∨ (30 ≤ env.mx ∧ env.mx ≤ 40))
    (hy : 15 ≤ env.my ∧ env.my ≤ 30) :
    ∃ g', g.Update env = .ok g' ∧ g'.Fox.State = Pouncing ∧ g'.StateTimer = 0 := by
  obtain ⟨g1, hinc⟩ := Game.incrementStep_ok { g with Fox := fox } env htps
  have hp : env.pounceGuard := by
    rcases hx with h | h
    · exact Or.inl ⟨h.1, h.2, hy.1, hy.2⟩
    · exact Or.inr ⟨h.1, h.2, hy.1, hy.2⟩
  refine ⟨_, Game.Update_eq hfox hinc, ?_⟩
  rw [Game.pounceTrigger_pos _ hp]
  simp [Game.timeoutSwitch, Fox.Pounce, Fox.Flip_State]

/-- Witness for C4: from Idle with dwell-timer 9, the button held, the pointer at
(35,20) and draws that would otherwise start a trot. -/
theorem pounce_trigger_forces_pouncing_witness :
    ∃ g', (gameAt Idle 9 540).Update (envAt 35 20 true 0.9 0.1) = .ok g' ∧
      g'.Fox.State = Pouncing ∧ g'.StateTimer = 0 := by
  obtain ⟨fox, hfox⟩ := gameAt_Fox_Update_ok Idle 9 540 (by decide) (by decide)
  exact pounce_trigger_forces_pouncing (gameAt Idle 9 540) (envAt 35 20 true 0.9 0.1) fox hfox
    (by decide) (by decide) (by decide)

/-- C5. A tick that begins in LookBehind, with no input override and the pointer
outside the pounce hot-rectangles, ends in Idle if and only if the dwell-timer
after the increment step (the timer of `g1`) equals 3; for every other timer
value it ends still in LookBehind. -/
theorem lookBehind_exits_exactly_at_three (g : Game) (env : Env) (fox : Fox) (g1 : Game)
    (hfox : g.Fox.Update = .ok fox)
    (hinc : Game.incrementStep { g with Fox := fox } env = .ok g1)
    (hs : g.Fox.State = LookBehind) (hno : ¬ env.inputOverrideGuard)
    (hnp : ¬ env.pounceGuard) :
    ∃ g', g.Update env = .ok g' ∧ (g'.Fox.State = Idle ↔ g1.StateTimer = 3) ∧
      (g1.StateTimer ≠ 3 → g'.Fox.State = LookBehind) := by
  obtain ⟨g', hg', _, hst⟩ := Game.Update_of_lookBehind hfox hinc hs hno hnp
  refine ⟨g', hg', ?_, ?_⟩
  · by_cases h3 : g1.StateTimer = 3 <;> simp [hst, h3]
  · intro h3
    simp [hst, h3]

/-- Witness for C5: LookBehind with dwell-timer 2 at tick counter 480, where the
increment step makes the timer 3. -/
theorem lookBehind_exits_exactly_at_three_witness :
    ∃ g', (gameAt LookBehind 2 480).Update (envAt 0 0 false 0 0) = .ok g' ∧
      g'.Fox.State = Idle := by
  obtain ⟨fox, hfox⟩ := gameAt_Fox_Update_ok LookBehind 2 480 (by decide) (by decide)
  obtain ⟨g', hg', hiff, _⟩ := lookBehind_exits_exactly_at_three (gameAt LookBehind 2 480)
    (envAt 0 0 false 0 0) fox { gameAt LookBehind 3 480 with Fox := fox } hfox rfl rfl
    (by decide) (by decide)
  exact ⟨g', hg', hiff.mpr rfl⟩

/-- C6. A tick that begins in Shocked, with no input override and the pointer
outside the pounce hot-rectangles, ends in Idle if and only if the dwell-timer
after the increment step (the timer of `g1`) equals 2, and then the timer ends
the tick at 0; for every other timer value the state stays Shocked and the timer
keeps its incremented value. -/
theorem shocked_exits_exactly_at_two (g : Game) (env : Env) (fox : Fox) (g1 : Game)
    (hfox : g.Fox.Update = .ok fox)
    (hinc : Game.incrementStep { g with Fox := fox } env = .ok g1)
    (hs : g.Fox.State = Shocked) (hno : ¬ env.inputOverrideGuard)
    (hnp : ¬ env.pounceGuard) :
    ∃ g', g.Update env = .ok g' ∧ (g'.Fox.State = Idle ↔ g1.StateTimer = 2) ∧
      (g1.StateTimer = 2 → g'.StateTimer = 0) ∧
      (g1.StateTimer ≠ 2 → g'.Fox.State = Shocked ∧ g'.StateTimer = g1.StateTimer) := by
  obtain ⟨g', hg', htm, hst⟩ := Game.Update_of_shocked hfox hinc hs hno hnp
  refine ⟨g', hg', ?_, ?_, ?_⟩
  · by_cases h2 : g1.StateTimer = 2 <;> simp [hst, h2]
  · intro h2
    simp [htm, h2]
  · intro h2
    simp [hst, htm, h2]

/-- Witness for C6: Shocked with dwell-timer 1 at tick counter 120, where the
increment step makes the timer 2. -/
theorem shocked_exits_exactly_at_two_witness :
    ∃ g', (gameAt Shocked 1 120).Update (envAt 0 0 false 0 0) = .ok g' ∧
      g'.Fox.State = Idle ∧ g'.StateTimer = 0 := by
  obtain ⟨fox, hfox⟩ := gameAt_Fox_Update_ok Shocked 1 120 (by decide) (by decide)
  obtain ⟨g', hg', hiff, h0, _⟩ := shocked_exits_exactly_at_two (gameAt Shocked 1 120)
    (envAt 0 0 false 0 0) fox { gameAt Shocked 2 120 with Fox := fox } hfox rfl rfl
    (by decide) (by decide)
  exact ⟨g', hg', hiff.mpr rfl, h0 rfl⟩

/-- C7. Let `g1` be the game on reaching the timeout switch. If its state is
Trotting (respectively Pouncing), the tick ends in Idle if and only if the
dwell-timer is greater than 2 (and otherwise stays in that state), and either
way the motion step Trot (respectively Pounce) is applied, so Position.X becomes
window-x + PounceSpeed. For every other state at the switch the motion step is
not applied: Position, Speed and PounceSpeed are those of the start of the tick. -/
theorem trot_pounce_timeout_and_motion (g : Game) (env : Env) (g1 : Game)
    (h : g.beforeSwitch env = .ok g1) :
    ∃ g', g.Update env = .ok g' ∧
      (g1.Fox.State = Trotting →
        (g'.Fox.State = Idle ↔ g1.StateTimer > 2) ∧
        (¬ g1.StateTimer > 2 → g'.Fox.State = Trotting) ∧
        g'.Fox = Fox.Trot { g1.Fox with State := if g1.StateTimer > 2 then Idle else Trotting } env ∧
        g'.Fox.Position.X = env.windowX + g.Fox.PounceSpeed) ∧
      (g1.Fox.State = Pouncing →
        (g'.Fox.State = Idle ↔ g1.StateTimer > 2) ∧
        (¬ g1.StateTimer > 2 → g'.Fox.State = Pouncing) ∧
        g'.Fox =
          Fox.Pounce { g1.Fox with State := if g1.StateTimer > 2 then Idle else Pouncing } env ∧
        g'.Fox.Position.X = env.windowX + g.Fox.PounceSpeed) ∧
      (g1.Fox.State ≠ Trotting → g1.Fox.State ≠ Pouncing →
        g'.Fox.Position = g.Fox.Position ∧ g'.Fox.Speed = g.Fox.Speed ∧
        g'.Fox.PounceSpeed = g.Fox.PounceSpeed) := by
  obtain ⟨hpos, hspeed, hpounce⟩ := Game.beforeSwitch_motion h
  refine ⟨_, Game.Update_of_beforeSwitch h, ?_, ?_, ?_⟩
  · intro hs
    have hfox : (g1.timeoutSwitch env).Fox =
        Fox.Trot { g1.Fox with State := if g1.StateTimer > 2 then Idle else Trotting } env := by
      by_cases ht : g1.StateTimer > 2
      · have ht' : 2 < g1.StateTimer := ht
        simp [Game.timeoutSwitch, hs, ht']
      · have ht' : ¬ 2 < g1.StateTimer := ht
        have e : ({ g1.Fox with State := Trotting } : Fox) = g1.Fox := by rw [← hs]
        simp [Game.timeoutSwitch, hs, ht', e]
    simp only [hfox]
    obtain ⟨t1, t2, _⟩ := Fox.Trot_fields
      { g1.Fox with State := if g1.StateTimer > 2 then Idle else Trotting } env
    refine ⟨?_, ?_, trivial, ?_⟩
    · rw [t1]
      by_cases ht : g1.StateTimer > 2 <;> simp [ht]
    · intro ht
      rw [t1]
      simp [ht]
    · rw [t2]
      simp [hpounce]
  · intro hs
    have hfox : (g1.timeoutSwitch env).Fox =
        Fox.Pounce { g1.Fox with State := if g1.StateTimer > 2 then Idle else Pouncing } env := by
      by_cases ht : g1.StateTimer > 2
      · have ht' : 2 < g1.StateTimer := ht
        simp [Game.timeoutSwitch, hs, ht']
      · have ht' : ¬ 2 < g1.StateTimer := ht
        have e : ({ g1.Fox with State := Pouncing } : Fox) = g1.Fox := by rw [← hs]
        simp [Game.timeoutSwitch, hs, ht', e]
    simp only [hfox]
    obtain ⟨t1, t2, _⟩ := Fox.Trot_fields
      { g1.Fox with State := if g1.StateTimer > 2 then Idle else Pouncing } env
    rw [Fox.Pounce_eq_Trot]
    refine ⟨?_, ?_, trivial, ?_⟩
    · rw [t1]
      by_cases ht : g1.StateTimer > 2 <;> simp [ht]
    · intro ht
      rw [t1]
      simp [ht]
    · rw [t2]
      simp [hpounce]
  · intro hnt hnp
    have hfox : (g1.timeoutSwitch env).Fox.Position = g1.Fox.Position ∧
        (g1.timeoutSwitch env).Fox.Speed = g1.Fox.Speed ∧
        (g1.timeoutSwitch env).Fox.PounceSpeed = g1.Fox.PounceSpeed := by
      simp only [Game.timeoutSwitch, if_neg hnt, if_neg hnp]
      split
      · split <;> simp
      · split
        · split <;> simp
        · simp
    simp only [hfox.1, hfox.2.1, hfox.2.2, hpos, hspeed, hpounce, and_self]


/-- Witness for C7: Trotting with dwell-timer 2 at tick counter 480 reaches the
switch in Trotting with timer 3, ends in Idle and has moved to x = 640 + 1. -/
theorem trot_pounce_timeout_and_motion_witness :
    ∃ g1 g', (gameAt Trotting 2 480).beforeSwitch (envAt 0 0 false 0 0) = .ok g1 ∧
      g1.Fox.State = Trotting ∧ g1.StateTimer = 3 ∧
      (gameAt Trotting 2 480).Update (envAt 0 0 false 0 0) = .ok g' ∧
      g'.Fox.State = Idle ∧ g'.Fox.Position.X = 641 := by
  obtain ⟨fox, hfox⟩ := gameAt_Fox_Update_ok Trotting 2 480 (by decide) (by decide)
  have hinc : Game.incrementStep { gameAt Trotting 2 480 with Fox := fox }
      (envAt 0 0 false 0 0) = .ok { gameAt Trotting 3 480 with Fox := fox } := rfl
  have hst : fox.State = Trotting := (Fox.Update_fields hfox).1
  have hb := Game.beforeSwitch_ok hfox hinc
  rw [Game.inputOverride_neg _ (by decide), Game.idleBranching_of_not_idle _ _ (by simp [hst]),
    Game.pounceTrigger_neg _ (by decide)] at hb
  obtain ⟨g', hg', htrot, _, _⟩ := trot_pounce_timeout_and_motion (gameAt Trotting 2 480)
    (envAt 0 0 false 0 0) _ hb
  obtain ⟨hiff, _, _, hx⟩ := htrot hst
  exact ⟨_, g', hb, hst, rfl, hg', hiff.mpr (by show (3 : Int) > 2; decide), hx⟩

/-- C8 (fails on the code). LookBehind with dwell-timer 2 at tick counter 480, no
button, pointer at (0,0): the tick starts in LookBehind and ends in Idle, so the
state has changed, yet StateTimer ends at 3, not 0. -/
theorem lookBehind_exit_keeps_timer :
    ∃ g', (gameAt LookBehind 2 480).Update (envAt 0 0 false 0 0) = .ok g' ∧
      (gameAt LookBehind 2 480).Fox.State = LookBehind ∧
      g'.Fox.State = Idle ∧ g'.StateTimer = 3 := by
  obtain ⟨fox, hfox⟩ := gameAt_Fox_Update_ok LookBehind 2 480 (by decide) (by decide)
  have hinc : Game.incrementStep { gameAt LookBehind 2 480 with Fox := fox }
      (envAt 0 0 false 0 0) = .ok { gameAt LookBehind 3 480 with Fox := fox } := rfl
  obtain ⟨g', hg', htm, hst⟩ := Game.Update_of_lookBehind hfox hinc rfl (by decide) (by decide)
  exact ⟨g', hg', rfl, hst, htm⟩

/-- C9. For every frameCount >= 0, state and row offset, `generateFrames` returns
exactly frameCount rectangles, the i-th with Min = (i*spriteWidth,
state*spriteHeight) and Max = ((i+1)*spriteWidth, rowOffset*spriteHeight); for
frameCount = 0 the result is empty. -/
theorem generateFrames_layout (frameCount state yOffSet : Int) (h : 0 ≤ frameCount) :
    ((generateFrames frameCount state yOffSet).length : Int) = frameCount ∧
    (∀ i : Nat, (i : Int) < frameCount →
      (generateFrames frameCount state yOffSet).get? i =
        some { Min := { X := (i : Int) * spriteWidth, Y := state * spriteHeight },
               Max := { X := ((i : Int) + 1) * spriteWidth, Y := yOffSet * spriteHeight } }) ∧
    (frameCount = 0 → generateFrames frameCount state yOffSet = []) := by
  rw [generateFrames_eq_map]
  refine ⟨?_, ?_, ?_⟩
  · simp [Int.toNat_of_nonneg h]
  · intro i hi
    have hi' : i < frameCount.toNat := by omega
    simp [List.get?_eq_getElem?, List.getElem?_map, List.getElem?_range hi']
  · intro h0
    simp [h0]

/-- Witness for C9: the Trotting row, eight frames in sprite-sheet row 2; its
frame 7 is the rectangle (224,64)-(256,96). -/
theorem generateFrames_layout_witness :
    ((generateFrames 8 Trotting 3).length : Int) = 8 ∧
      (generateFrames 8 Trotting 3).get? 7 =
        some { Min := { X := 224, Y := 64 }, Max := { X := 256, Y := 96 } } :=
  ⟨(generateFrames_layout 8 Trotting 3 (by decide)).1,
    (generateFrames_layout 8 Trotting 3 (by decide)).2.1 7 (by decide)⟩

/-- C10. `Fox.Trot` and `Fox.Pounce` have the same effect: each sets Position.X to
window-x + PounceSpeed and leaves Position.Y and State unchanged, and when the
new X is strictly greater than sx/2 (truncated division) and strictly less than
sx - wsx - 32 it leaves Speed and PounceSpeed unchanged. -/
theorem trot_pounce_effect (f : Fox) (env : Env) :
    f.Trot env = f.Pounce env ∧
    (f.Trot env).Position.X = env.windowX + f.PounceSpeed ∧
    (f.Trot env).Position.Y = f.Position.Y ∧
    (f.Trot env).State = f.State ∧
    (Int.tdiv env.screenW 2 < env.windowX + f.PounceSpeed →
      env.windowX + f.PounceSpeed < env.screenW - env.windowW - 32 →
      (f.Trot env).Speed = f.Speed ∧ (f.Trot env).PounceSpeed = f.PounceSpeed) := by
  obtain ⟨t1, t2, t3⟩ := Fox.Trot_fields f env
  refine ⟨rfl, t2, t3, t1, ?_⟩
  intro h1 h2
  have e : f.Trot env =
      { f with Position := { f.Position with X := env.windowX + f.PounceSpeed } } := by
    rw [Fox.Trot]
    exact Fox.Flip_inside _ env h1 h2
  rw [e]
  exact ⟨rfl, rfl⟩

/-- Witness for C10: sx = 1280, wsx = 128, wx = 640, p = 1 gives Position.X = 641
and no sign flip, for Trot and for Pounce. -/
theorem trot_pounce_effect_witness :
    ((gameAt Trotting 0 0).Fox.Trot (envAt 0 0 false 0 0)).Position.X = 641 ∧
      ((gameAt Trotting 0 0).Fox.Trot (envAt 0 0 false 0 0)).Speed = 2 ∧
      ((gameAt Trotting 0 0).Fox.Trot (envAt 0 0 false 0 0)).PounceSpeed = 1 ∧
      (gameAt Trotting 0 0).Fox.Pounce (envAt 0 0 false 0 0) =
        (gameAt Trotting 0 0).Fox.Trot (envAt 0 0 false 0 0) :=
  ⟨(trot_pounce_effect (gameAt Trotting 0 0).Fox (envAt 0 0 false 0 0)).2.1,
    ((trot_pounce_effect (gameAt Trotting 0 0).Fox (envAt 0 0 false 0 0)).2.2.2.2
      (by decide) (by decide)).1,
    ((trot_pounce_effect (gameAt Trotting 0 0).Fox (envAt 0 0 false 0 0)).2.2.2.2
      (by decide) (by decide)).2,
    (trot_pounce_effect (gameAt Trotting 0 0).Fox (envAt 0 0 false 0 0)).1.symm⟩

/-! ## Slice indexing -/

theorem goIndex_ok_range {α : Type} {xs : List α} {i : Int} {x : α}
    (h : goIndex xs i = .ok x) : 0 ≤ i ∧ i.toNat < xs.length ∧ xs.get? i.toNat = some x := by
  unfold goIndex at h
  by_cases hi : i < 0
  · simp [hi] at h
  · rw [if_neg hi] at h
    cases hg : xs.get? i.toNat with
    | none =>
      rw [hg] at h
      exact Except.noConfusion h
    | some y =>
      rw [hg] at h
      injection h with h
      subst h
      have hlt : i.toNat < xs.length := by
        by_contra hc
        rw [List.get?_eq_none.mpr (by omega)] at hg
        exact Option.noConfusion hg
      exact ⟨by omega, hlt, rfl⟩

theorem goIndex_of_get? {α : Type} {xs : List α} {i : Int} {x : α} (h0 : 0 ≤ i)
    (h : xs.get? i.toNat = some x) : goIndex xs i = .ok x := by
  have hi : ¬ i < 0 := by omega
  simp only [goIndex, hi, if_false, h]

/-- Each of the seven animations of `NewGame` has at least two frames, frame
speed 15 and counter 0. -/
theorem foxAnimations_of_index {s : Int} {a : Animation}
    (h : goIndex foxAnimations s = .ok a) :
    0 ≤ s ∧ s ≤ 6 ∧ 2 ≤ a.Frames.length ∧ a.FrameSpeed = 15 ∧ a.incrementor = 0 := by
  obtain ⟨h0, hlt, _⟩ := goIndex_ok_range h
  have h6 : s ≤ 6 := by
    have : foxAnimations.length = 7 := rfl
    omega
  obtain ⟨b, hb, h1, h2, h3⟩ := foxAnimations_index s h0 h6
  rw [h] at hb
  injection hb with hb
  subst hb
  exact ⟨h0, h6, h1, h2, h3⟩

/-! ## The increment step in closed form -/

theorem Game.incrementStep_eq (g : Game) (env : Env) (h : env.tps ≠ 0) :
    g.incrementStep env =
      .ok { g with StateTimer :=
              g.StateTimer + (if Int.tmod g.tickCounter env.tps = 0 then 1 else 0) } := by
  unfold Game.incrementStep
  simp only [goMod, h, if_false, bind, Except.bind, pure, Except.pure]
  split <;> simp

theorem Game.Update_tickCounter {g g' : Game} {env : Env} (h : g.Update env = .ok g') :
    g'.tickCounter = g.tickCounter + 1 := by
  unfold Game.Update at h
  cases hb : g.beforeSwitch env with
  | error e => simp [hb, bind, Except.bind] at h
  | ok g1 =>
    simp only [hb, bind, Except.bind, pure, Except.pure] at h
    injection h with h
    subst h
    have h1 : (g1.timeoutSwitch env).tickCounter = g1.tickCounter := by
      unfold Game.timeoutSwitch
      split
      · split <;> rfl
      · split
        · split <;> rfl
        · split
          · simp only
            split <;> rfl
          · split
            · simp only
              split <;> rfl
            · rfl
    have h2 : g1.tickCounter = g.tickCounter := by
      unfold Game.beforeSwitch at hb
      cases hfox : g.Fox.Update with
      | error e => simp [hfox, bind, Except.bind] at hb
      | ok fox =>
        cases hinc : Game.incrementStep { g with Fox := fox } env with
        | error e => simp [hfox, hinc, bind, Except.bind] at hb
        | ok g0 =>
          simp only [hfox, hinc, bind, Except.bind, pure, Except.pure] at hb
          injection hb with hb
          subst hb
          have a1 := (Game.incrementStep_fields hinc).2.1
          simp only at a1
          rw [← a1]
          unfold Game.pounceTrigger Game.idleBranching Game.inputOverride
          simp only
          split <;> split <;> split <;> split <;> split <;> rfl
    simp only [h1, h2]

/-- Exactly one of `tps` consecutive integers starting at `c` is a multiple of
`tps`. -/
theorem exists_unique_multiple_in_window (c tps : Int) (htps : 1 ≤ tps) :
    ∃! j : Nat, (j : Int) < tps ∧ Int.tmod (c + j) tps = 0 := by
  have hpos : 0 < tps := by omega
  refine ⟨((-c) % tps).toNat, ⟨?_, ?_⟩, ?_⟩
  · have := Int.emod_lt_of_pos (-c) hpos
    have := Int.emod_nonneg (-c) (ne_of_gt hpos)
    omega
  · apply Int.tmod_eq_zero_of_dvd
    have h0 := Int.emod_nonneg (-c) (ne_of_gt hpos)
    rw [Int.toNat_of_nonneg h0]
    have h := Int.emod_add_ediv (-c) tps
    exact ⟨-((-c) / tps), by linarith⟩
  · rintro j ⟨hj, hz⟩
    have h0 := Int.emod_nonneg (-c) (ne_of_gt hpos)
    have h1 := Int.emod_lt_of_pos (-c) hpos
    have hd : tps ∣ c + j := Int.dvd_of_tmod_eq_zero hz
    have hd' : tps ∣ c + (-c) % tps := by
      have h := Int.emod_add_ediv (-c) tps
      exact ⟨-((-c) / tps), by linarith⟩
    have hsub : tps ∣ (j : Int) - (-c) % tps := by
      have := Int.dvd_sub hd hd'
      simpa using this
    have hz' : (j : Int) - (-c) % tps = 0 := by
      apply Int.eq_zero_of_abs_lt_dvd hsub
      rw [abs_lt]
      constructor <;> omega
    omega

theorem generateFrames_get? (frameCount state yOffSet : Int) (i : Nat) (frame : Rectangle)
    (h : (generateFrames frameCount state yOffSet).get? i = some frame) :
    frame = { Min := { X := (i : Int) * spriteWidth, Y := state * spriteHeight },
              Max := { X := ((i : Int) + 1) * spriteWidth, Y := yOffSet * spriteHeight } } := by
  rw [generateFrames_eq_map, List.get?_eq_getElem?, List.getElem?_map] at h
  by_cases hi : i < frameCount.toNat
  · rw [List.getElem?_range hi] at h
    simpa using h.symm
  · rw [List.getElem?_eq_none (by simpa using hi)] at h
    exact Option.noConfusion h

/-! ## Inverting a tick -/

/-- A tick that completes went through every phase. -/
theorem Game.Update_inv {g g' : Game} {env : Env} (h : g.Update env = .ok g') :
    ∃ fox g0, g.Fox.Update = .ok fox ∧ Game.incrementStep { g with Fox := fox } env = .ok g0 ∧
      g.beforeSwitch env = .ok (((g0.inputOverride env).idleBranching env).pounceTrigger env) ∧
      g' = { (((g0.inputOverride env).idleBranching env).pounceTrigger env).timeoutSwitch env with
              tickCounter := ((((g0.inputOverride env).idleBranching env).pounceTrigger
                env).timeoutSwitch env).tickCounter + 1 } := by
  cases hfox : g.Fox.Update with
  | error e => simp [Game.Update, Game.beforeSwitch, hfox, bind, Except.bind] at h
  | ok fox =>
    cases hinc : Game.incrementStep { g with Fox := fox } env with
    | error e => simp [Game.Update, Game.beforeSwitch, hfox, hinc, bind, Except.bind] at h
    | ok g0 =>
      rw [Game.Update_eq hfox hinc] at h
      injection h with h
      exact ⟨fox, g0, rfl, hinc, Game.beforeSwitch_ok hfox hinc, h.symm⟩

/-- The dwell-timer after the increment step is the old one or one more. -/
theorem Game.incrementStep_timer {g g1 : Game} {env : Env} (h : g.incrementStep env = .ok g1) :
    g1.StateTimer = g.StateTimer ∨ g1.StateTimer = g.StateTimer + 1 := by
  unfold Game.incrementStep at h
  cases h1 : goMod g.tickCounter env.tps with
  | error e => simp [h1, bind, Except.bind] at h
  | ok r =>
    simp only [h1, bind, Except.bind, pure, Except.pure] at h
    split at h <;> (injection h with h; subst h; simp)

/-! ## State and dwell-timer through the phases -/

theorem Game.inputOverride_state (g : Game) (env : Env) :
    ((g.inputOverride env).Fox.State = g.Fox.State ∧
        (g.inputOverride env).StateTimer = g.StateTimer) ∨
      ((g.inputOverride env).Fox.State = Shocked ∧ (g.inputOverride env).StateTimer = 0) := by
  unfold Game.inputOverride
  split <;> simp

theorem Game.idleBranching_state (g : Game) (env : Env) :
    ((g.idleBranching env).Fox.State = g.Fox.State ∧
        (g.idleBranching env).StateTimer = g.StateTimer) ∨
      ((g.idleBranching env).StateTimer = 0 ∧
        ((g.idleBranching env).Fox.State = Trotting ∨
          (g.idleBranching env).Fox.State = LookBehind ∨
          (g.idleBranching env).Fox.State = Sleeping)) := by
  unfold Game.idleBranching
  simp only
  split <;> split <;> split <;> simp

theorem Game.pounceTrigger_state (g : Game) (env : Env) :
    ((g.pounceTrigger env).Fox.State = g.Fox.State ∧
        (g.pounceTrigger env).StateTimer = g.StateTimer) ∨
      ((g.pounceTrigger env).Fox.State = Pouncing ∧ (g.pounceTrigger env).StateTimer = 0) := by
  unfold Game.pounceTrigger
  split <;> simp

/-- State and dwell-timer on reaching the switch: those of the start of the tick,
the timer perhaps one more, or a state just entered with timer 0. -/
theorem Game.beforeSwitch_state {g g1 : Game} {env : Env} (h : g.beforeSwitch env = .ok g1) :
    (g1.Fox.State = g.Fox.State ∧
        (g1.StateTimer = g.StateTimer ∨ g1.StateTimer = g.StateTimer + 1)) ∨
      (g1.StateTimer = 0 ∧
        (g1.Fox.State = Shocked ∨ g1.Fox.State = Trotting ∨ g1.Fox.State = LookBehind ∨
          g1.Fox.State = Sleeping ∨ g1.Fox.State = Pouncing)) := by
  unfold Game.beforeSwitch at h
  cases hfox : g.Fox.Update with
  | error e => simp [hfox, bind, Except.bind] at h
  | ok fox =>
    cases hinc : Game.incrementStep { g with Fox := fox } env with
    | error e => simp [hfox, hinc, bind, Except.bind] at h
    | ok g0 =>
      simp only [hfox, hinc, bind, Except.bind, pure, Except.pure] at h
      injection h with h
      subst h
      have a1 := (Game.state_after_increment hfox hinc).1
      have a2 := Game.incrementStep_timer hinc
      simp only at a2
      have b := Game.inputOverride_state g0 env
      have c := Game.idleBranching_state (g0.inputOverride env) env
      have d := Game.pounceTrigger_state ((g0.inputOverride env).idleBranching env) env
      rcases d with ⟨d1, d2⟩ | ⟨d1, d2⟩
      · rcases c with ⟨c1, c2⟩ | ⟨c1, c2⟩
        · rcases b with ⟨b1, b2⟩ | ⟨b1, b2⟩
          · left
            rw [d1, d2, c1, c2, b1, b2, a1]
            exact ⟨rfl, a2⟩
          · right
            rw [d1, d2, c1, c2, b1, b2]
            exact ⟨rfl, Or.inl rfl⟩
        · right
          rw [d1, d2]
          refine ⟨c1, ?_⟩
          rcases c2 with c2 | c2 | c2
          · exact Or.inr (Or.inl c2)
          · exact Or.inr (Or.inr (Or.inl c2))
          · exact Or.inr (Or.inr (Or.inr (Or.inl c2)))
      · right
        exact ⟨d2, Or.inr (Or.inr (Or.inr (Or.inr d1)))⟩

/-- State and dwell-timer after the switch. -/
theorem Game.timeoutSwitch_state (g : Game) (env : Env) :
    (g.timeoutSwitch env).Fox.State =
        (if g.Fox.State = LookBehind then (if g.StateTimer = 3 then Idle else LookBehind)
         else if g.Fox.State = Shocked then (if g.StateTimer = 2 then Idle else Shocked)
         else if g.Fox.State = Trotting then (if g.StateTimer > 2 then Idle else Trotting)
         else if g.Fox.State = Pouncing then (if g.StateTimer > 2 then Idle else Pouncing)
         else g.Fox.State) ∧
      (g.timeoutSwitch env).StateTimer =
        (if g.Fox.State = Shocked ∧ g.StateTimer = 2 then 0 else g.StateTimer) := by
  unfold Game.timeoutSwitch
  by_cases h1 : g.Fox.State = LookBehind
  · by_cases h3 : g.StateTimer = 3 <;> simp [h1, h3]
  · by_cases h2 : g.Fox.State = Shocked
    · by_cases h3 : g.StateTimer = 2 <;> simp [h2, h3]
    · by_cases h4 : g.Fox.State = Trotting
      · by_cases h3 : 2 < g.StateTimer <;>
          simp [h4, h3, Fox.Trot, Fox.Flip_State]
      · by_cases h5 : g.Fox.State = Pouncing
        · by_cases h3 : 2 < g.StateTimer <;>
            simp [h5, h3, Fox.Pounce, Fox.Flip_State]
        · simp [h1, h2, h4, h5]

/-! ## The animations through a tick -/

theorem Animation.Update_keeps {a a' : Animation} (h : a.Update = .ok a') :
    a'.Frames = a.Frames ∧ a'.FrameSpeed = a.FrameSpeed ∧
      a'.incrementor = a.incrementor + 1 ∧ a'.Name = a.Name := by
  unfold Animation.Update at h
  simp only [bind, Except.bind, pure, Except.pure] at h
  split at h
  · exact Except.noConfusion h
  · split at h
    · exact Except.noConfusion h
    · split at h
      · exact Except.noConfusion h
      · injection h with h
        subst h
        exact ⟨rfl, rfl, rfl, rfl⟩

theorem Fox.Update_animations_inv {f fox : Fox} (h : f.Update = .ok fox) :
    ∃ a a', goIndex f.Animations f.State = .ok a ∧ a.Update = .ok a' ∧
      fox.Animations = f.Animations.set f.State.toNat a' := by
  unfold Fox.Update at h
  cases h1 : goIndex f.Animations f.State with
  | error e => simp [h1, bind, Except.bind] at h
  | ok a =>
    cases h2 : a.Update with
    | error e => simp [h1, h2, bind, Except.bind] at h
    | ok a' =>
      simp only [h1, h2, bind, Except.bind, pure, Except.pure] at h
      injection h with h
      subst h
      exact ⟨a, a', rfl, h2, rfl⟩

/-- Reading a slice after one element was replaced. -/
theorem goIndex_set {α : Type} (xs : List α) (s t : Int) (x y : α) (ht : 0 ≤ t)
    (h : goIndex xs s = .ok x) :
    goIndex (xs.set t.toNat y) s = .ok (if t = s then y else x) := by
  obtain ⟨h0, hlt, hget⟩ := goIndex_ok_range h
  apply goIndex_of_get? h0
  rw [List.get?_eq_getElem?, List.getElem?_set]
  by_cases hts : t = s
  · subst hts
    simp [hlt]
  · have hne : t.toNat ≠ s.toNat := by omega
    rw [List.get?_eq_getElem?] at hget
    simp [hne, hts, hget]

theorem Fox.Flip_Animations (f : Fox) (env : Env) : (f.Flip env).Animations = f.Animations := by
  unfold Fox.Flip
  simp only
  split <;> split <;> rfl

theorem Game.inputOverride_Animations (g : Game) (env : Env) :
    (g.inputOverride env).Fox.Animations = g.Fox.Animations := by
  unfold Game.inputOverride
  split <;> rfl

theorem Game.idleBranching_Animations (g : Game) (env : Env) :
    (g.idleBranching env).Fox.Animations = g.Fox.Animations := by
  unfold Game.idleBranching
  simp only
  split <;> split <;> split <;> rfl

theorem Game.pounceTrigger_Animations (g : Game) (env : Env) :
    (g.pounceTrigger env).Fox.Animations = g.Fox.Animations := by
  unfold Game.pounceTrigger
  split <;> rfl

theorem Game.timeoutSwitch_Animations (g : Game) (env : Env) :
    (g.timeoutSwitch env).Fox.Animations = g.Fox.Animations := by
  unfold Game.timeoutSwitch
  split
  · split <;> rfl
  · split
    · split <;> rfl
    · split
      · simp only [Fox.Trot, Fox.Flip_Animations]
        split <;> rfl
      · split
        · simp only [Fox.Pounce, Fox.Flip_Animations]
          split <;> rfl
        · rfl

/-- The only phase of a tick that writes the animations is `Fox.Update`. -/
theorem Game.Update_Animations {g g' : Game} {env : Env} (h : g.Update env = .ok g') :
    ∃ fox, g.Fox.Update = .ok fox ∧ g'.Fox.Animations = fox.Animations := by
  obtain ⟨fox, g0, hfox, hinc, _, hg'⟩ := Game.Update_inv h
  refine ⟨fox, hfox, ?_⟩
  have h0 : g0.Fox = fox := (Game.incrementStep_fields hinc).1
  rw [hg']
  simp only [Game.timeoutSwitch_Animations, Game.pounceTrigger_Animations,
    Game.idleBranching_Animations, Game.inputOverride_Animations, h0]

/-- What one tick does to the animation of state `s`: its counter grows by one
if `s` is the state the tick began in, and nothing of it changes otherwise. -/
theorem Game.Update_animation_at {g g' : Game} {env : Env} (h : g.Update env = .ok g')
    {s : Int} {a : Animation} (ha : goIndex g.Fox.Animations s = .ok a) :
    ∃ a', goIndex g'.Fox.Animations s = .ok a' ∧ a'.Frames = a.Frames ∧
      a'.FrameSpeed = a.FrameSpeed ∧
      a'.incrementor = a.incrementor + (if g.Fox.State = s then 1 else 0) ∧
      (g.Fox.State ≠ s → a' = a) := by
  obtain ⟨fox, hfox, hanim⟩ := Game.Update_Animations h
  obtain ⟨b, b', hb, hup, hset⟩ := Fox.Update_animations_inv hfox
  obtain ⟨ht0, _, _⟩ := goIndex_ok_range hb
  obtain ⟨f1, f2, f3, _⟩ := Animation.Update_keeps hup
  rw [hanim, hset, goIndex_set _ s _ a b' ht0 ha]
  by_cases hs : g.Fox.State = s
  · subst hs
    rw [ha] at hb
    injection hb with hb
    subst hb
    exact ⟨_, rfl, by simp [f1], by simp [f2], by simp [f3], fun hne => absurd rfl hne⟩
  · exact ⟨_, rfl, by simp [hs], by simp [hs], by simp [hs], fun _ => by simp [hs]⟩

/-! ## Ticks from `NewGame` complete -/

/-- A tick that completes: the game that reached the switch, and what the switch
made of it. -/
theorem Game.Update_switch {g g' : Game} {env : Env} (h : g.Update env = .ok g') :
    ∃ g1, g.beforeSwitch env = .ok g1 ∧ g'.Fox = (g1.timeoutSwitch env).Fox ∧
      g'.StateTimer = (g1.timeoutSwitch env).StateTimer := by
  obtain ⟨fox, g0, _, _, hb, hg'⟩ := Game.Update_inv h
  exact ⟨_, hb, by rw [hg'], by rw [hg']⟩

/-- A tick keeps the state among the seven. -/
theorem Game.Update_state_range {g g' : Game} {env : Env} (h : g.Update env = .ok g')
    (h0 : 0 ≤ g.Fox.State) (h6 : g.Fox.State ≤ 6) :
    0 ≤ g'.Fox.State ∧ g'.Fox.State ≤ 6 := by
  obtain ⟨g1, hb, hfox, _⟩ := Game.Update_switch h
  have hs := (Game.timeoutSwitch_state g1 env).1
  have hb' := Game.beforeSwitch_state hb
  rw [hfox, hs]
  have h1 : 0 ≤ g1.Fox.State ∧ g1.Fox.State ≤ 6 := by
    rcases hb' with ⟨e, _⟩ | ⟨_, e | e | e | e | e⟩ <;> rw [e] <;> first | exact ⟨h0, h6⟩ | decide
  split_ifs <;> first | exact h1 | decide

theorem NewGame_WellFormed (sx sy : Int) : (NewGame sx sy).WellFormed := by
  refine ⟨by show (0 : Int) ≤ 0; decide, by show (0 : Int) ≤ 6; decide, ?_⟩
  intro s h0 h6
  obtain ⟨a, ha, h1, h2, h3⟩ := foxAnimations_index s h0 h6
  exact ⟨a, ha, h1, by rw [h2]; decide, by rw [h3]⟩

theorem Game.WellFormed.tick_ok {g : Game} (hwf : g.WellFormed) (env : Env)
    (htps : env.tps ≠ 0) : ∃ g', g.Update env = .ok g' := by
  obtain ⟨h0, h6, hall⟩ := hwf
  obtain ⟨a, ha, h1, h2, h3⟩ := hall g.Fox.State h0 h6
  obtain ⟨fox, hfox⟩ := Fox.Update_ok g.Fox a ha h1 h2 h3
  obtain ⟨g1, hinc⟩ := Game.incrementStep_ok { g with Fox := fox } env htps
  exact ⟨_, Game.Update_eq hfox hinc⟩

theorem Game.WellFormed.tick {g g' : Game} {env : Env} (hwf : g.WellFormed)
    (h : g.Update env = .ok g') : g'.WellFormed := by
  obtain ⟨h0, h6, hall⟩ := hwf
  obtain ⟨r0, r6⟩ := Game.Update_state_range h h0 h6
  refine ⟨r0, r6, ?_⟩
  intro s hs0 hs6
  obtain ⟨a, ha, h1, h2, h3⟩ := hall s hs0 hs6
  obtain ⟨a', ha', f1, f2, f3, _⟩ := Game.Update_animation_at h ha
  refine ⟨a', ha', by rw [f1]; exact h1, by rw [f2]; exact h2, ?_⟩
  rw [f3]
  split <;> omega

/-! ## Induction along a run -/

theorem Game.runWith_invariant (adj : Game → Env → Env) (P : Game → Prop)
    (hstep : ∀ g env g', P g → g.Update (adj g env) = .ok g' → P g') :
    ∀ (envs : List Env) (g g' : Game), P g → Game.runWith adj g envs = .ok g' → P g' := by
  intro envs
  induction envs with
  | nil =>
    intro g g' hP h
    simp only [Game.runWith] at h
    injection h with h
    subst h
    exact hP
  | cons env envs ih =>
    intro g g' hP h
    simp only [Game.runWith] at h
    cases hu : g.Update (adj g env) with
    | error e =>
      rw [hu] at h
      exact Except.noConfusion h
    | ok g1 =>
      rw [hu] at h
      exact ih g1 g' (hstep g env g1 hP hu) h

/-- A run from a well-formed game completes when no tick reads a zero tick rate. -/
theorem Game.WellFormed.runWith_ok (adj : Game → Env → Env)
    (hadj : ∀ g env, (adj g env).tps = env.tps) :
    ∀ (envs : List Env) (g : Game), g.WellFormed → (∀ env ∈ envs, env.tps ≠ 0) →
      ∃ g', Game.runWith adj g envs = .ok g' := by
  intro envs
  induction envs with
  | nil =>
    intro g _ _
    exact ⟨g, rfl⟩
  | cons env envs ih =>
    intro g hwf htps
    have h1 : (adj g env).tps ≠ 0 := by
      rw [hadj]
      exact htps env (List.mem_cons_self _ _)
    obtain ⟨g1, hu⟩ := hwf.tick_ok (adj g env) h1
    obtain ⟨g', hg'⟩ := ih g1 (hwf.tick hu) (fun e he => htps e (List.mem_cons_of_mem _ he))
    exact ⟨g', by simp only [Game.runWith, hu, hg']⟩

/-! ## Position and speeds through a tick -/

/-- The speeds after `Fox.Flip`, by the two boundary tests. -/
theorem Fox.Flip_speeds (f : Fox) (env : Env) :
    (f.Flip env).PounceSpeed =
        (if f.Position.X ≥ env.screenW - env.windowW - 32 then
          (if f.Position.X ≤ Int.tdiv env.screenW 2 then f.PounceSpeed else -f.PounceSpeed)
         else (if f.Position.X ≤ Int.tdiv env.screenW 2 then -f.PounceSpeed else f.PounceSpeed)) ∧
      (f.Flip env).Speed =
        (if f.Position.X ≥ env.screenW - env.windowW - 32 then
          (if f.Position.X ≤ Int.tdiv env.screenW 2 then f.Speed else -f.Speed)
         else (if f.Position.X ≤ Int.tdiv env.screenW 2 then -f.Speed else f.Speed)) := by
  by_cases h1 : f.Position.X ≥ env.screenW - env.windowW - 32 <;>
    by_cases h2 : f.Position.X ≤ Int.tdiv env.screenW 2
  · have h1' : f.Position.X ≥ env.screenW - env.windowW - spriteWidth := h1
    simp [Fox.Flip, h1', h2, h1]
  · have h1' : f.Position.X ≥ env.screenW - env.windowW - spriteWidth := h1
    simp [Fox.Flip, h1', h2, h1]
  · have h1' : ¬ f.Position.X ≥ env.screenW - env.windowW - spriteWidth := h1
    simp only [Fox.Flip, if_neg h1', if_neg h1, if_pos h2, and_self]
  · have h1' : ¬ f.Position.X ≥ env.screenW - env.windowW - spriteWidth := h1
    simp only [Fox.Flip, if_neg h1', if_neg h1, if_neg h2, and_self]

/-- The switch either leaves position and speeds alone or applies the motion step
to a fox with the position and speeds of the game that reached it. -/
theorem Game.timeoutSwitch_motion (g : Game) (env : Env) :
    ((g.timeoutSwitch env).Fox.Position = g.Fox.Position ∧
        (g.timeoutSwitch env).Fox.Speed = g.Fox.Speed ∧
        (g.timeoutSwitch env).Fox.PounceSpeed = g.Fox.PounceSpeed) ∨
      (∃ f0 : Deskpet.Fox, f0.Position = g.Fox.Position ∧ f0.Speed = g.Fox.Speed ∧
        f0.PounceSpeed = g.Fox.PounceSpeed ∧ (g.timeoutSwitch env).Fox = f0.Trot env) := by
  unfold Game.timeoutSwitch
  split
  · left
    split <;> simp
  · split
    · left
      split <;> simp
    · split
      · right
        simp only
        split
        · exact ⟨{ g.Fox with State := Idle }, rfl, rfl, rfl, rfl⟩
        · exact ⟨g.Fox, rfl, rfl, rfl, rfl⟩
      · split
        · right
          simp only
          split
          · exact ⟨{ g.Fox with State := Idle }, rfl, rfl, rfl, rfl⟩
          · exact ⟨g.Fox, rfl, rfl, rfl, rfl⟩
        · left
          simp

/-- A tick either leaves position and speeds alone or applies the motion step to
a fox with the position and speeds of the start of the tick. -/
theorem Game.Update_motion {g g' : Game} {env : Env} (h : g.Update env = .ok g') :
    (g'.Fox.Position = g.Fox.Position ∧ g'.Fox.Speed = g.Fox.Speed ∧
        g'.Fox.PounceSpeed = g.Fox.PounceSpeed) ∨
      (∃ f0 : Deskpet.Fox, f0.Position = g.Fox.Position ∧ f0.Speed = g.Fox.Speed ∧
        f0.PounceSpeed = g.Fox.PounceSpeed ∧ g'.Fox = f0.Trot env) := by
  obtain ⟨g1, hb, hfox, _⟩ := Game.Update_switch h
  obtain ⟨m1, m2, m3⟩ := Game.beforeSwitch_motion hb
  rw [hfox]
  rcases Game.timeoutSwitch_motion g1 env with ⟨t1, t2, t3⟩ | ⟨f0, t1, t2, t3, t4⟩
  · left
    exact ⟨t1.trans m1, t2.trans m2, t3.trans m3⟩
  · right
    exact ⟨f0, t1.trans m1, t2.trans m2, t3.trans m3, t4⟩

/-- Position and speeds after the motion step. -/
theorem Fox.Trot_motion (f : Fox) (env : Env) :
    (f.Trot env).Position.X = env.windowX + f.PounceSpeed ∧
      (f.Trot env).PounceSpeed =
        (if env.windowX + f.PounceSpeed ≥ env.screenW - env.windowW - 32 then
          (if env.windowX + f.PounceSpeed ≤ Int.tdiv env.screenW 2 then f.PounceSpeed
           else -f.PounceSpeed)
         else (if env.windowX + f.PounceSpeed ≤ Int.tdiv env.screenW 2 then -f.PounceSpeed
           else f.PounceSpeed)) ∧
      (f.Trot env).Speed =
        (if env.windowX + f.PounceSpeed ≥ env.screenW - env.windowW - 32 then
          (if env.windowX + f.PounceSpeed ≤ Int.tdiv env.screenW 2 then f.Speed else -f.Speed)
         else (if env.windowX + f.PounceSpeed ≤ Int.tdiv env.screenW 2 then -f.Speed
           else f.Speed)) := by
  refine ⟨(Fox.Trot_fields f env).2.1, ?_, ?_⟩
  · rw [Fox.Trot]
    exact (Fox.Flip_speeds _ env).1
  · rw [Fox.Trot]
    exact (Fox.Flip_speeds _ env).2

/-! ## Counters along a run -/

/-- Along a run, the counter of the animation of state `s` grows by the number of
ticks that began with `s` active, and its frame table stays. -/
theorem Game.run_counter :
    ∀ (envs : List Env) (g g' : Game) (s : Int) (a : Animation),
      Game.run g envs = .ok g' → goIndex g.Fox.Animations s = .ok a →
      ∃ a', goIndex g'.Fox.Animations s = .ok a' ∧ a'.Frames = a.Frames ∧
        a'.incrementor = a.incrementor + (Game.activeTicks s g envs : Int) := by
  intro envs
  induction envs with
  | nil =>
    intro g g' s a h ha
    simp only [Game.run, Game.runWith] at h
    injection h with h
    subst h
    exact ⟨a, ha, rfl, by simp [Game.activeTicks]⟩
  | cons env envs ih =>
    intro g g' s a h ha
    simp only [Game.run, Game.runWith] at h
    cases hu : g.Update env with
    | error e =>
      rw [hu] at h
      exact Except.noConfusion h
    | ok g1 =>
      rw [hu] at h
      obtain ⟨a1, ha1, f1, _, f3, _⟩ := Game.Update_animation_at hu ha
      obtain ⟨a', ha', e1, e2⟩ := ih g1 g' s a1 h ha1
      refine ⟨a', ha', e1.trans f1, ?_⟩
      rw [e2, f3]
      simp only [Game.activeTicks, hu]
      split
      · push_cast
        ring
      · simp

/-! ## Invariants of the runs from `NewGame` -/

/-- One tick keeps the bounds on the dwell-timer of the timed states, and never
enters Dying. -/
theorem Game.Update_timer_bounds {g g' : Game} {env : Env} (h : g.Update env = .ok g')
    (h1 : g.Fox.State = Shocked → g.StateTimer ≤ 1)
    (h2 : g.Fox.State = LookBehind → g.StateTimer ≤ 2)
    (h3 : g.Fox.State ≠ Dying) :
    (g'.Fox.State = Shocked → g'.StateTimer ≤ 1) ∧
      (g'.Fox.State = LookBehind → g'.StateTimer ≤ 2) ∧
      (g'.Fox.State = Trotting ∨ g'.Fox.State = Pouncing → g'.StateTimer ≤ 2) ∧
      g'.Fox.State ≠ Dying := by
  obtain ⟨g1, hb, hfox, htimer⟩ := Game.Update_switch h
  obtain ⟨hs, ht⟩ := Game.timeoutSwitch_state g1 env
  have hb' := Game.beforeSwitch_state hb
  rw [hfox, htimer, hs, ht]
  have p1 : g1.Fox.State = 4 → g1.StateTimer ≤ 2 := by
    intro e
    rcases hb' with ⟨e1, e2⟩ | ⟨e1, _⟩
    · have := h1 (e1.symm.trans e)
      omega
    · omega
  have p2 : g1.Fox.State = 1 → g1.StateTimer ≤ 3 := by
    intro e
    rcases hb' with ⟨e1, e2⟩ | ⟨e1, _⟩
    · have := h2 (e1.symm.trans e)
      omega
    · omega
  have p3 : g1.Fox.State ≠ 6 := by
    rcases hb' with ⟨e1, _⟩ | ⟨_, e | e | e | e | e⟩
    · rw [e1]
      exact h3
    all_goals (rw [e]; decide)
  by_cases c1 : g1.Fox.State = 1
  · have := p2 c1
    by_cases c2 : g1.StateTimer = 3
    · simp [c1, c2]
    · simp [c1, c2]
      omega
  · by_cases c4 : g1.Fox.State = 4
    · have := p1 c4
      by_cases c2 : g1.StateTimer = 2
      · simp [c4, c2]
      · simp [c4, c2]
        omega
    · by_cases c5 : g1.Fox.State = 2
      · by_cases c2 : 2 < g1.StateTimer
        · simp [c5, c2]
        · simp [c5, c2]
          omega
      · by_cases c6 : g1.Fox.State = 3
        · by_cases c2 : 2 < g1.StateTimer
          · simp [c6, c2]
          · simp [c6, c2]
            omega
        · simp only [c1, c4, c5, c6, if_false, false_and]
          exact ⟨fun e => e.elim, fun e => e.elim, fun e => e.elim (fun e => e.elim)
            (fun e => e.elim), p3⟩

/-- One tick keeps `Speed = 2 * PounceSpeed` and `PounceSpeed` among 1 and -1. -/
theorem Game.Update_speeds {g g' : Game} {env : Env} (h : g.Update env = .ok g')
    (h1 : g.Fox.Speed = 2 * g.Fox.PounceSpeed)
    (h2 : g.Fox.PounceSpeed = 1 ∨ g.Fox.PounceSpeed = -1) :
    g'.Fox.Speed = 2 * g'.Fox.PounceSpeed ∧
      (g'.Fox.PounceSpeed = 1 ∨ g'.Fox.PounceSpeed = -1) := by
  rcases Game.Update_motion h with ⟨_, m2, m3⟩ | ⟨f0, _, m2, m3, m4⟩
  · rw [m2, m3]
    exact ⟨h1, h2⟩
  · obtain ⟨_, t2, t3⟩ := Fox.Trot_motion f0 env
    rw [m4, t2, t3, m2, m3]
    split_ifs <;> constructor <;> omega

/-- One tick whose window honours `SetWindowPosition` keeps the overlay between
the screen midpoint and the right-edge bound, heading right below the bound and
left above the midpoint. -/
theorem Game.Update_honoured_bounds {g g' : Game} {env : Env} {sx wsx : Int}
    (h : g.Update (Env.honoured sx wsx g env) = .ok g')
    (hgap : Int.tdiv sx 2 < sx - wsx - 32)
    (hinv : (g.Fox.PounceSpeed = 1 ∧ Int.tdiv sx 2 ≤ g.Fox.Position.X ∧
          g.Fox.Position.X ≤ sx - wsx - 32 - 1) ∨
        (g.Fox.PounceSpeed = -1 ∧ Int.tdiv sx 2 + 1 ≤ g.Fox.Position.X ∧
          g.Fox.Position.X ≤ sx - wsx - 32)) :
    (g'.Fox.PounceSpeed = 1 ∧ Int.tdiv sx 2 ≤ g'.Fox.Position.X ∧
        g'.Fox.Position.X ≤ sx - wsx - 32 - 1) ∨
      (g'.Fox.PounceSpeed = -1 ∧ Int.tdiv sx 2 + 1 ≤ g'.Fox.Position.X ∧
        g'.Fox.Position.X ≤ sx - wsx - 32) := by
  rcases Game.Update_motion h with ⟨m1, _, m3⟩ | ⟨f0, m1, _, m3, m4⟩
  · rw [m1, m3]
    exact hinv
  · obtain ⟨t1, t2, _⟩ := Fox.Trot_motion f0 (Env.honoured sx wsx g env)
    rw [m4, t1, t2, m3]
    simp only [Env.honoured]
    split_ifs <;> omega

/-- On reaching the switch, a Shocked timer is at most 2 and a LookBehind timer at
most 3 when they were at most 1 and 2 at the start of the tick. -/
theorem Game.beforeSwitch_timer_bounds {g g1 : Game} {env : Env}
    (hb : g.beforeSwitch env = .ok g1)
    (h1 : g.Fox.State = Shocked → g.StateTimer ≤ 1)
    (h2 : g.Fox.State = LookBehind → g.StateTimer ≤ 2) :
    (g1.Fox.State = Shocked → g1.StateTimer ≤ 2) ∧
      (g1.Fox.State = LookBehind → g1.StateTimer ≤ 3) := by
  have hb' := Game.beforeSwitch_state hb
  constructor
  · intro e
    rcases hb' with ⟨e1, e2⟩ | ⟨e1, _⟩
    · have := h1 (e1.symm.trans e)
      omega
    · omega
  · intro e
    rcases hb' with ⟨e1, e2⟩ | ⟨e1, _⟩
    · have := h2 (e1.symm.trans e)
      omega
    · omega

/-! ## Claims on the animation clock, the timer and the runs -/

/-- C11. For each of the seven animations built by `NewGame` (any animation with
the frame table and frame speed of one of them) and every counter value k >= 0,
`Animation.Update` completes: the frame count it recomputes and uses as modulus
is >= 1, FrameSpeed is non-zero, and the selected index lies inside Frames. -/
theorem newGame_animation_update_never_faults (s : Int) (a0 a : Animation)
    (ha0 : goIndex foxAnimations s = .ok a0) (hF : a.Frames = a0.Frames)
    (hS : a.FrameSpeed = a0.FrameSpeed) (hk : 0 ≤ a.incrementor) :
    ∃ a', a.Update = .ok a' ∧
      a'.FrameCount = (a.Frames.length : Int) - 1 ∧ 1 ≤ a'.FrameCount ∧
      a.FrameSpeed ≠ 0 ∧
      0 ≤ Int.tmod (Int.tdiv a.incrementor a.FrameSpeed) a'.FrameCount ∧
      Int.tmod (Int.tdiv a.incrementor a.FrameSpeed) a'.FrameCount < a.Frames.length ∧
      a.Frames.get? (Int.tmod (Int.tdiv a.incrementor a.FrameSpeed) a'.FrameCount).toNat =
        some a'.CurrentFrame := by
  obtain ⟨_, _, hlen, hspeed, _⟩ := foxAnimations_of_index ha0
  have hlen' : 2 ≤ a.Frames.length := by rw [hF]; exact hlen
  have hs : 0 < a.FrameSpeed := by rw [hS, hspeed]; decide
  obtain ⟨frame, hframe, hup⟩ := Animation.Update_of_two_frames a hlen' hs hk
  have hq : 0 ≤ Int.tdiv a.incrementor a.FrameSpeed := Int.tdiv_nonneg hk (le_of_lt hs)
  have hpos : (0 : Int) < (a.Frames.length : Int) - 1 := by omega
  have hr0 := Int.tmod_nonneg ((a.Frames.length : Int) - 1) hq
  have hr1 := Int.tmod_lt_of_pos (Int.tdiv a.incrementor a.FrameSpeed) hpos
  refine ⟨_, hup, rfl, ?_, ne_of_gt hs, hr0, ?_, hframe⟩
  · show (1 : Int) ≤ (a.Frames.length : Int) - 1
    omega
  · show Int.tmod (Int.tdiv a.incrementor a.FrameSpeed) ((a.Frames.length : Int) - 1) < _
    omega

/-- Witness for C11: the Idle animation at counter 60. -/
theorem newGame_animation_update_never_faults_witness :
    ∃ a', Animation.Update
        { newAnimation "Idle" (generateFrames 5 Idle 1) 15 5 with incrementor := 60 } = .ok a' ∧
      1 ≤ a'.FrameCount := by
  obtain ⟨a', h, _, h1, _⟩ := newGame_animation_update_never_faults Idle
    (newAnimation "Idle" (generateFrames 5 Idle 1) 15 5)
    { newAnimation "Idle" (generateFrames 5 Idle 1) 15 5 with incrementor := 60 }
    (by simp [goIndex, foxAnimations]) rfl rfl (by decide)
  exact ⟨a', h, h1⟩

/-- C12. When `Fox.Update` completes it advances the counter of the animation of
the active state by exactly 1, keeping its frame table, and leaves every other
animation as it was; consequently, in every game reached from `NewGame` by a
run of ticks, the counter of each animation equals the number of ticks that
began with its state active, so a state that is re-entered resumes from the
counter it had. -/
theorem fox_update_ticks_only_active_animation :
    (∀ (f fox : Fox), f.Update = .ok fox →
      fox.Animations.length = f.Animations.length ∧
      (∃ a a', goIndex f.Animations f.State = .ok a ∧
        goIndex fox.Animations f.State = .ok a' ∧
        a'.incrementor = a.incrementor + 1 ∧ a'.Frames = a.Frames) ∧
      (∀ (s : Int) (b : Animation), s ≠ f.State → goIndex f.Animations s = .ok b →
        goIndex fox.Animations s = .ok b)) ∧
    (∀ (sx sy : Int) (envs : List Env) (g' : Game),
      Game.run (NewGame sx sy) envs = .ok g' →
      ∀ (s : Int) (a0 : Animation), goIndex foxAnimations s = .ok a0 →
        ∃ a, goIndex g'.Fox.Animations s = .ok a ∧ a.Frames = a0.Frames ∧
          a.incrementor = (Game.activeTicks s (NewGame sx sy) envs : Int)) ∧
    (∀ (sx sy : Int) (envs : List Env), (∀ env ∈ envs, env.tps ≠ 0) →
      ∃ g', Game.run (NewGame sx sy) envs = .ok g') := by
  refine ⟨?_, ?_, ?_⟩
  · intro f fox h
    obtain ⟨a, a', ha, hup, hset⟩ := Fox.Update_animations_inv h
    obtain ⟨f1, _, f3, _⟩ := Animation.Update_keeps hup
    obtain ⟨h0, _, _⟩ := goIndex_ok_range ha
    refine ⟨by rw [hset, List.length_set], ⟨a, a', ha, ?_, f3, f1⟩, ?_⟩
    · rw [hset, goIndex_set _ _ _ a a' h0 ha]
      simp
    · intro s b hs hb
      rw [hset, goIndex_set _ _ _ b a' h0 hb]
      simp [Ne.symm hs]
  · intro sx sy envs g' h s a0 ha0
    obtain ⟨a, ha, e1, e2⟩ := Game.run_counter envs (NewGame sx sy) g' s a0 h ha0
    obtain ⟨_, _, _, _, hz⟩ := foxAnimations_of_index ha0
    exact ⟨a, ha, e1, by rw [e2, hz]; simp⟩
  · intro sx sy envs htps
    exact Game.WellFormed.runWith_ok _ (fun _ _ => rfl) envs _ (NewGame_WellFormed sx sy) htps

/-- C13. For every tick rate TPS >= 1 and every game, whatever its state: the
increment step adds exactly 1 to the dwell-timer when tickCounter mod TPS = 0 and
nothing otherwise, and touches nothing else; a tick that completes grows
tickCounter by exactly 1; and in every window of TPS consecutive tick-counter
values (games `w 0, w 1, ...` with counters c, c+1, ..., any states and timers)
the increment step fires at exactly one. -/
theorem increment_step_once_per_tps (g : Game) (env : Env) (htps : 1 ≤ env.tps) :
    (g.incrementStep env =
      .ok { g with StateTimer :=
              g.StateTimer + (if Int.tmod g.tickCounter env.tps = 0 then 1 else 0) }) ∧
    (∀ fox, g.Fox.Update = .ok fox →
      ∃ g', g.Update env = .ok g' ∧ g'.tickCounter = g.tickCounter + 1) ∧
    (∀ (w : Nat → Game) (c : Int), (∀ j, (w j).tickCounter = c + j) →
      ∃! j : Nat, (j : Int) < env.tps ∧
        ∃ g1, (w j).incrementStep env = .ok g1 ∧ g1.StateTimer = (w j).StateTimer + 1) := by
  have hne : env.tps ≠ 0 := by omega
  refine ⟨Game.incrementStep_eq g env hne, ?_, ?_⟩
  · intro fox hfox
    obtain ⟨g1, hinc⟩ := Game.incrementStep_ok { g with Fox := fox } env hne
    exact ⟨_, Game.Update_eq hfox hinc, Game.Update_tickCounter (Game.Update_eq hfox hinc)⟩
  · intro w c hw
    have key : ∀ j : Nat, (∃ g1, (w j).incrementStep env = .ok g1 ∧
        g1.StateTimer = (w j).StateTimer + 1) ↔ Int.tmod (c + j) env.tps = 0 := by
      intro j
      rw [Game.incrementStep_eq (w j) env hne, hw j]
      constructor
      · rintro ⟨g1, h1, h2⟩
        injection h1 with h1
        subst h1
        by_contra hz
        simp [hz] at h2
      · intro hz
        exact ⟨_, rfl, by simp [hz]⟩
    obtain ⟨j, ⟨hj1, hj2⟩, huniq⟩ := exists_unique_multiple_in_window c env.tps htps
    refine ⟨j, ⟨hj1, (key j).mpr hj2⟩, ?_⟩
    rintro k ⟨hk1, hk2⟩
    exact huniq k ⟨hk1, (key k).mp hk2⟩

/-- Witness for C13: at 60 ticks per second the increment step fires on tick
counter 120 and not on tick counter 121. -/
theorem increment_step_once_per_tps_witness :
    Game.incrementStep (gameAt Sleeping 4 120) (envAt 0 0 false 0 0) =
        .ok (gameAt Sleeping 5 120) ∧
      Game.incrementStep (gameAt Sleeping 4 121) (envAt 0 0 false 0 0) =
        .ok (gameAt Sleeping 4 121) :=
  ⟨(increment_step_once_per_tps (gameAt Sleeping 4 120) (envAt 0 0 false 0 0) (by decide)).1,
    rfl⟩

/-- C14. `Fox.Flip` never changes Position (nor State), and: it negates both Speed
and PounceSpeed when exactly one of X >= sx - wsx - 32 and X <= sx/2 holds; leaves
both unchanged when neither holds; and leaves both unchanged when both hold. -/
theorem flip_effect (f : Fox) (env : Env) :
    (f.Flip env).Position = f.Position ∧ (f.Flip env).State = f.State ∧
    ((f.Position.X ≥ env.screenW - env.windowW - 32 ∧ ¬ f.Position.X ≤ Int.tdiv env.screenW 2) ∨
      (¬ f.Position.X ≥ env.screenW - env.windowW - 32 ∧ f.Position.X ≤ Int.tdiv env.screenW 2) →
      (f.Flip env).Speed = -f.Speed ∧ (f.Flip env).PounceSpeed = -f.PounceSpeed) ∧
    (¬ f.Position.X ≥ env.screenW - env.windowW - 32 ∧ ¬ f.Position.X ≤ Int.tdiv env.screenW 2 →
      (f.Flip env).Speed = f.Speed ∧ (f.Flip env).PounceSpeed = f.PounceSpeed) ∧
    (f.Position.X ≥ env.screenW - env.windowW - 32 ∧ f.Position.X ≤ Int.tdiv env.screenW 2 →
      (f.Flip env).Speed = f.Speed ∧ (f.Flip env).PounceSpeed = f.PounceSpeed) := by
  refine ⟨Fox.Flip_Position f env, Fox.Flip_State f env, ?_, ?_, ?_⟩
  · rintro (⟨h1, h2⟩ | ⟨h1, h2⟩)
    · have h1' : f.Position.X ≥ env.screenW - env.windowW - spriteWidth := h1
      simp [Fox.Flip, h1', h2]
    · have h1' : ¬ f.Position.X ≥ env.screenW - env.windowW - spriteWidth := h1
      simp only [Fox.Flip, if_neg h1', if_pos h2, and_self]
  · rintro ⟨h1, h2⟩
    have h1' : ¬ f.Position.X ≥ env.screenW - env.windowW - spriteWidth := h1
    simp only [Fox.Flip, if_neg h1', if_neg h2, and_self]
  · rintro ⟨h1, h2⟩
    have h1' : f.Position.X ≥ env.screenW - env.windowW - spriteWidth := h1
    simp [Fox.Flip, h1', h2]

/-- Witness for C14: on a 100-wide screen with a 128-wide overlay both bounds hold
at X = 0 (0 >= -60 and 0 <= 50) and the speeds 2 and 1 are left as they are. -/
theorem flip_effect_witness :
    (Fox.Flip { (NewGame 100 720).Fox with Position := { X := 0, Y := 0 } }
        { envAt 0 0 false 0 0 with screenW := 100 }).Speed = 2 ∧
      (Fox.Flip { (NewGame 100 720).Fox with Position := { X := 0, Y := 0 } }
        { envAt 0 0 false 0 0 with screenW := 100 }).PounceSpeed = 1 :=
  (flip_effect { (NewGame 100 720).Fox with Position := { X := 0, Y := 0 } }
    { envAt 0 0 false 0 0 with screenW := 100 }).2.2.2.2 ⟨by decide, by decide⟩

/-- C15. On a screen of width sx with an overlay of width wsx such that
sx/2 < sx - wsx - 32, in every run from `NewGame` in which the window honours
`SetWindowPosition` (each tick reads as window x the Position.X the game holds),
with any pointer, button, tick rate and draws, Position.X stays within
[sx/2, sx - wsx - 32]; and such a run completes when no tick rate is zero. -/
theorem overlay_stays_between_midpoint_and_right_bound (sx sy wsx : Int)
    (hgap : Int.tdiv sx 2 < sx - wsx - 32) (envs : List Env) :
    (∀ g', Game.runHonoured sx wsx (NewGame sx sy) envs = .ok g' →
      Int.tdiv sx 2 ≤ g'.Fox.Position.X ∧ g'.Fox.Position.X ≤ sx - wsx - 32) ∧
    ((∀ env ∈ envs, env.tps ≠ 0) →
      ∃ g', Game.runHonoured sx wsx (NewGame sx sy) envs = .ok g') := by
  constructor
  · intro g' h
    have hP := Game.runWith_invariant (Env.honoured sx wsx)
      (fun g => (g.Fox.PounceSpeed = 1 ∧ Int.tdiv sx 2 ≤ g.Fox.Position.X ∧
          g.Fox.Position.X ≤ sx - wsx - 32 - 1) ∨
        (g.Fox.PounceSpeed = -1 ∧ Int.tdiv sx 2 + 1 ≤ g.Fox.Position.X ∧
          g.Fox.Position.X ≤ sx - wsx - 32))
      (fun g env g1 hg hu => Game.Update_honoured_bounds hu hgap hg)
      envs (NewGame sx sy) g'
      (Or.inl ⟨rfl, le_refl _, by show Int.tdiv sx 2 ≤ sx - wsx - 32 - 1; omega⟩) h
    rcases hP with ⟨_, a, b⟩ | ⟨_, a, b⟩ <;> constructor <;> omega
  · intro htps
    exact Game.WellFormed.runWith_ok (Env.honoured sx wsx) (fun _ _ => rfl) envs _
      (NewGame_WellFormed sx sy) htps

/-- Witness for C15: sx = 1280 and wsx = 128 (640 < 1120), two ticks with the
pointer in the right pounce hot-rectangle, which move the overlay. -/
theorem overlay_stays_between_midpoint_and_right_bound_witness :
    ∃ g', Game.runHonoured 1280 128 (NewGame 1280 720)
        [envAt 35 20 false 0 0, envAt 35 20 false 0 0] = .ok g' ∧
      640 ≤ g'.Fox.Position.X ∧ g'.Fox.Position.X ≤ 1120 := by
  obtain ⟨hb, hok⟩ := overlay_stays_between_midpoint_and_right_bound 1280 720 128 (by decide)
    [envAt 35 20 false 0 0, envAt 35 20 false 0 0]
  obtain ⟨g', hg'⟩ := hok (by
    intro env he
    simp only [List.mem_cons, List.mem_singleton, List.not_mem_nil, or_false, or_self] at he
    subst he
    decide)
  exact ⟨g', hg', hb g' hg'⟩

/-- C16. The seven animations built by `NewGame` have 5, 14, 8, 11, 5, 6, 7 frames,
in state order, and frame i of the animation of state s is the 32x32 rectangle
spanning x in [32*i, 32*(i+1)] and y in [32*s, 32*(s+1)]. -/
theorem newGame_frame_tables :
    foxAnimations.map (fun a => a.Frames.length) = [5, 14, 8, 11, 5, 6, 7] ∧
    ∀ (s i : Nat) (a : Animation) (frame : Rectangle),
      foxAnimations.get? s = some a → a.Frames.get? i = some frame →
        frame = { Min := { X := 32 * (i : Int), Y := 32 * (s : Int) },
                  Max := { X := 32 * ((i : Int) + 1), Y := 32 * ((s : Int) + 1) } } ∧
        frame.Max.X - frame.Min.X = 32 ∧ frame.Max.Y - frame.Min.Y = 32 := by
  constructor
  · simp only [foxAnimations, newAnimation, generateFrames_eq_map]
    decide
  · intro s i a frame hs hi
    have hframe : frame =
        (⟨⟨32 * (i : Int), 32 * (s : Int)⟩, ⟨32 * ((i : Int) + 1), 32 * ((s : Int) + 1)⟩⟩ :
          Rectangle) := by
      have hlt : s < 7 := by
        have h := List.get?_eq_some.mp hs
        obtain ⟨h, _⟩ := h
        exact h
      interval_cases s <;>
        · simp only [foxAnimations, List.get?] at hs
          injection hs with hs
          subst hs
          rw [generateFrames_get? _ _ _ i frame hi]
          simp [mul_comm]
          try decide
    subst hframe
    exact ⟨rfl, by simp; ring, by simp; ring⟩

/-- C17. A tick that completes and begins in Sleeping or Dying, whatever the
dwell-timer and the draws, with no input override and the pointer outside both
pounce hot-rectangles, ends in the same state with Position, Speed and
PounceSpeed unchanged. -/
theorem sleeping_dying_have_no_exit (g : Game) (env : Env) (fox : Fox)
    (hfox : g.Fox.Update = .ok fox) (htps : env.tps ≠ 0)
    (hs : g.Fox.State = Sleeping ∨ g.Fox.State = Dying) (hno : ¬ env.inputOverrideGuard)
    (hnp : ¬ env.pounceGuard) :
    ∃ g', g.Update env = .ok g' ∧ g'.Fox.State = g.Fox.State ∧
      g'.Fox.Position = g.Fox.Position ∧ g'.Fox.Speed = g.Fox.Speed ∧
      g'.Fox.PounceSpeed = g.Fox.PounceSpeed := by
  obtain ⟨g1, hinc⟩ := Game.incrementStep_ok { g with Fox := fox } env htps
  obtain ⟨s1, s2, s3, s4, _⟩ := Game.state_after_increment hfox hinc
  have hidle : g1.Fox.State ≠ Idle := by
    rw [s1]
    rcases hs with h | h <;> rw [h] <;> decide
  refine ⟨_, Game.Update_eq hfox hinc, ?_⟩
  rw [Game.inputOverride_neg g1 hno, Game.idleBranching_of_not_idle _ _ hidle,
    Game.pounceTrigger_neg _ hnp]
  have hsw : g1.timeoutSwitch env = g1 := by
    rcases hs with h | h <;> simp [Game.timeoutSwitch, s1, h]
  simp only [hsw, s1, s2, s3, s4, and_self]

/-- Witness for C17: Sleeping with dwell-timer 40, no button, pointer at (0,0) and
draws that would start a trot from Idle. -/
theorem sleeping_dying_have_no_exit_witness :
    ∃ g', (gameAt Sleeping 40 2400).Update (envAt 0 0 false 0.9 0.1) = .ok g' ∧
      g'.Fox.State = Sleeping ∧ g'.Fox.Position.X = 640 := by
  obtain ⟨fox, hfox⟩ := gameAt_Fox_Update_ok Sleeping 40 2400 (by decide) (by decide)
  obtain ⟨g', hg', h1, h2, _⟩ := sleeping_dying_have_no_exit (gameAt Sleeping 40 2400)
    (envAt 0 0 false 0.9 0.1) fox hfox (by decide) (Or.inl rfl) (by decide) (by decide)
  exact ⟨g', hg', h1, by rw [h2]; rfl⟩

/-- C18. For an animation with FrameSpeed > 0 and counter >= 0, `Animation.Update`
completes if and only if Frames has at least 2 elements; with exactly one frame
it faults on the zero modulus (Go reports a zero divisor of `%` as an integer
divide by zero), and with no frame on an out-of-range index. -/
theorem animation_update_completes_iff_two_frames (a : Animation) (hs : 0 < a.FrameSpeed)
    (hk : 0 ≤ a.incrementor) :
    ((∃ a', a.Update = .ok a') ↔ 2 ≤ a.Frames.length) ∧
    (a.Frames.length = 1 →
      goDiv a.incrementor a.FrameSpeed = .ok (Int.tdiv a.incrementor a.FrameSpeed) ∧
      a.Update = .error .divideByZero) ∧
    (a.Frames.length = 0 → a.Update = .error .indexOutOfRange) := by
  have hs' : a.FrameSpeed ≠ 0 := ne_of_gt hs
  have h1 : a.Frames.length = 1 → a.Update = .error .divideByZero := by
    intro h
    simp [Animation.Update, goDiv, goMod, hs', h, bind, Except.bind]
  have h0 : a.Frames.length = 0 → a.Update = .error .indexOutOfRange := by
    intro h
    have hnil : a.Frames = [] := List.length_eq_zero.mp h
    simp [Animation.Update, goDiv, goMod, goIndex, hs', hnil, bind, Except.bind]
  refine ⟨⟨?_, ?_⟩, ?_, h0⟩
  · rintro ⟨a', ha'⟩
    by_contra hlen
    have hcases : a.Frames.length = 0 ∨ a.Frames.length = 1 := by omega
    rcases hcases with h | h
    · rw [h0 h] at ha'
      exact Except.noConfusion ha'
    · rw [h1 h] at ha'
      exact Except.noConfusion ha'
  · intro hlen
    obtain ⟨frame, _, hup⟩ := Animation.Update_of_two_frames a hlen hs hk
    exact ⟨_, hup⟩
  · intro h
    exact ⟨by simp [goDiv, hs'], h1 h⟩

/-- Witness for C18: at frame speed 15 and counter 0, a one-frame animation
faults on the zero modulus and an animation without frames on the index. -/
theorem animation_update_completes_iff_two_frames_witness :
    Animation.Update (newAnimation "One" (generateFrames 1 Idle 1) 15 1) =
        .error .divideByZero ∧
      Animation.Update (newAnimation "None" (generateFrames 0 Idle 1) 15 0) =
        .error .indexOutOfRange :=
  ⟨((animation_update_completes_iff_two_frames
      (newAnimation "One" (generateFrames 1 Idle 1) 15 1) (by decide) (by decide)).2.1
      (by simp [newAnimation, generateFrames_eq_map])).2,
    (animation_update_completes_iff_two_frames
      (newAnimation "None" (generateFrames 0 Idle 1) 15 0) (by decide) (by decide)).2.2
      (by simp [newAnimation, generateFrames_eq_map])⟩

/-- C19. In every game reached from `NewGame` by a run of ticks, on any readings:
State = Shocked implies StateTimer <= 1, State = LookBehind implies
StateTimer <= 2, State = Trotting or Pouncing implies StateTimer <= 2, and State
is never Dying; hence the next tick reaches the switch with a Shocked timer of at
most 2 and a LookBehind timer of at most 3, and the exits at exactly 2 and 3
cannot be stepped over. Such a run completes when every tick rate is >= 1. -/
theorem timed_states_never_overrun (sx sy : Int) (envs : List Env) :
    (∀ g', Game.run (NewGame sx sy) envs = .ok g' →
      (g'.Fox.State = Shocked → g'.StateTimer ≤ 1) ∧
      (g'.Fox.State = LookBehind → g'.StateTimer ≤ 2) ∧
      (g'.Fox.State = Trotting ∨ g'.Fox.State = Pouncing → g'.StateTimer ≤ 2) ∧
      g'.Fox.State ≠ Dying ∧
      (∀ env g1, g'.beforeSwitch env = .ok g1 →
        (g1.Fox.State = Shocked → g1.StateTimer ≤ 2) ∧
        (g1.Fox.State = LookBehind → g1.StateTimer ≤ 3))) ∧
    ((∀ env ∈ envs, 1 ≤ env.tps) → ∃ g', Game.run (NewGame sx sy) envs = .ok g') := by
  constructor
  · intro g' h
    have hP := Game.runWith_invariant (fun _ env => env)
      (fun g => (g.Fox.State = Shocked → g.StateTimer ≤ 1) ∧
        (g.Fox.State = LookBehind → g.StateTimer ≤ 2) ∧
        (g.Fox.State = Trotting ∨ g.Fox.State = Pouncing → g.StateTimer ≤ 2) ∧
        g.Fox.State ≠ Dying)
      (fun g env g1 hg hu => Game.Update_timer_bounds hu hg.1 hg.2.1 hg.2.2.2)
      envs (NewGame sx sy) g'
      ⟨fun _ => by show (0 : Int) ≤ 1; decide, fun _ => by show (0 : Int) ≤ 2; decide,
        fun _ => by show (0 : Int) ≤ 2; decide, by show (0 : Int) ≠ 6; decide⟩ h
    obtain ⟨p1, p2, p3, p4⟩ := hP
    exact ⟨p1, p2, p3, p4, fun env g1 hb => Game.beforeSwitch_timer_bounds hb p1 p2⟩
  · intro htps
    exact Game.WellFormed.runWith_ok _ (fun _ _ => rfl) envs _ (NewGame_WellFormed sx sy)
      (fun env he => by have := htps env he; omega)

/-- C20. In every game reached from `NewGame` by a run of ticks, on any readings
and any window and screen geometry, Speed = 2 * PounceSpeed and PounceSpeed is 1
or -1, so Speed is negative (the test by which Draw mirrors the sprite) exactly
when PounceSpeed, the displacement applied by Trot and Pounce, is negative. Such
a run completes when no tick rate is zero. -/
theorem speed_sign_follows_pounce_speed (sx sy : Int) (envs : List Env) :
    (∀ g', Game.run (NewGame sx sy) envs = .ok g' →
      g'.Fox.Speed = 2 * g'.Fox.PounceSpeed ∧
      (g'.Fox.PounceSpeed = 1 ∨ g'.Fox.PounceSpeed = -1) ∧
      (g'.Fox.Speed < 0 ↔ g'.Fox.PounceSpeed < 0)) ∧
    ((∀ env ∈ envs, env.tps ≠ 0) → ∃ g', Game.run (NewGame sx sy) envs = .ok g') := by
  constructor
  · intro g' h
    have hP := Game.runWith_invariant (fun _ env => env)
      (fun g => g.Fox.Speed = 2 * g.Fox.PounceSpeed ∧
        (g.Fox.PounceSpeed = 1 ∨ g.Fox.PounceSpeed = -1))
      (fun g env g1 hg hu => Game.Update_speeds hu hg.1 hg.2)
      envs (NewGame sx sy) g' ⟨rfl, Or.inl rfl⟩ h
    obtain ⟨p1, p2⟩ := hP
    exact ⟨p1, p2, by constructor <;> intro _ <;> omega⟩
  · intro htps
    exact Game.WellFormed.runWith_ok _ (fun _ _ => rfl) envs _ (NewGame_WellFormed sx sy) htps

end Deskpet
